import Mathlib

/-!
Verification of the paged virtual-memory subsystem (`src/memory/virtual_mem.cpp`)
and the hart execution loop (`src/simulator/hart_impl.cpp`) of the RISC-V
simulator.  Machine integers are modelled as `Nat`; `uintptr_t` arithmetic wraps
modulo `2 ^ 64` and the wrap is written out explicitly at every point where the
source can overflow.  The `Page`/`PhysMem` headers are not among the provided
sources, so their constants and one-line accessors are modelled from the spec
and individually marked `Modelled from the spec:`.  The page-offset bit width
`Page::OFFSET_BIT_LENGTH` is kept as a parameter `bits` throughout, so every
theorem holds for whatever concrete width the missing header fixes.
-/

namespace RVSim

/-- Modelled from the spec: addresses are flat 64-bit integers (`uintptr_t`), so
all address arithmetic is modulo `ADDR_SPACE = 2 ^ 64`. -/
def ADDR_SPACE : Nat := 2 ^ 64

/-- Modelled from the spec (missing `Page` header): `Page::SIZE`, the number of
bytes in one page, `2 ^ Page::OFFSET_BIT_LENGTH`. -/
def pageSize (bits : Nat) : Nat := 2 ^ bits

/-- Modelled from the spec (missing `Page` header): `Page::OFFSET_MASK`, the mask
selecting the low in-page-offset bits of an address. -/
def OFFSET_MASK (bits : Nat) : Nat := 2 ^ bits - 1

/-- Modelled from the spec (missing `Page` header): `Page::ID_MASK`, the mask
selecting the high page-id bits of a 64-bit address. -/
def ID_MASK (bits : Nat) : Nat := 2 ^ 64 - 2 ^ bits

/-- Models `VirtualMem::GetPageIdByAddress`:
`(addr & Page::ID_MASK) >> Page::OFFSET_BIT_LENGTH`. -/
def GetPageIdByAddress (bits addr : Nat) : Nat := (addr &&& ID_MASK bits) >>> bits

/-- Models `VirtualMem::GetPageOffsetByAddress`: `addr & Page::OFFSET_MASK`. -/
def GetPageOffsetByAddress (bits addr : Nat) : Nat := addr &&& OFFSET_MASK bits

/-- Models `VirtualMem::GetPointer`:
`(page_id << Page::OFFSET_BIT_LENGTH) + page_offset` in `uintptr_t` arithmetic. -/
def GetPointer (bits page_id page_offset : Nat) : Nat :=
  ((page_id <<< bits) + page_offset) % ADDR_SPACE

/-- Modelled from the spec (missing `Page` header): one physical page is its byte
contents by in-page offset (zero-initialized on allocation) together with the
free pointer `free_pointer ∈ [0, Page::SIZE]`, the offset of the first
unoccupied byte; `Page::GetFreeMemoryPtr` returns page start plus `freePtr` and
`Page::GetFreeMemorySize` returns `Page::SIZE - freePtr`. -/
structure Page where
  data : Nat → Nat
  freePtr : Nat

/-- A freshly allocated page: zero bytes, free pointer at offset 0. -/
def Page.empty : Page := ⟨fun _ => 0, 0⟩

/-- Modelled from the spec (missing `PhysMem` header): the sparse collection of
pages keyed by page id; a page is `none` until its first (allocating) touch. -/
structure VirtualMem where
  pages : Nat → Option Page

/-- The initial virtual memory: no page mapped. -/
def VirtualMem.empty : VirtualMem := ⟨fun _ => none⟩

/-- The page with id `pid` (the zero page when unmapped); lookups made on behalf
of occupancy tracking always hit pages just allocated by `StoreByte`, so the
lookup is modelled total. -/
def VirtualMem.getPageD (m : VirtualMem) (pid : Nat) : Page :=
  (m.pages pid).getD Page.empty

/-- Replaces (or allocates) the page with id `pid`. -/
def VirtualMem.setPage (m : VirtualMem) (pid : Nat) (pg : Page) : VirtualMem :=
  ⟨fun p => if p = pid then some pg else m.pages p⟩

/-- One-byte update of a page at offset `off`. -/
def Page.setByte (pg : Page) (off v : Nat) : Page :=
  { pg with data := fun o => if o = off then v else pg.data o }

/-- Models `VirtualMem::StoreByte`: translates the address, resolves the physical
byte with `GetPhysAddress<true>` (allocating a zero page on a miss) and stores
the byte there (`chr` is a `uint8_t`, hence the `% 256` at the call boundary). -/
def VirtualMem.storeByte (bits : Nat) (m : VirtualMem) (addr v : Nat) : VirtualMem :=
  let pid := GetPageIdByAddress bits addr
  m.setPage pid ((m.getPageD pid).setByte (GetPageOffsetByAddress bits addr) (v % 256))

/-- Models `VirtualMem::LoadByte`: `GetPhysAddress<false>` page-faults on an
unmapped page, which the source turns into a process abort — modelled `none`. -/
def VirtualMem.loadByte (bits : Nat) (m : VirtualMem) (addr : Nat) : Option Nat :=
  match m.pages (GetPageIdByAddress bits addr) with
  | none => none
  | some pg => some (pg.data (GetPageOffsetByAddress bits addr))

/-- The loop of `VirtualMem::StoreByteSequence`: `StoreByte(addr + i, chrs[i])`
for `i = 0 .. length-1`, the address advancing in `uintptr_t` arithmetic. -/
def VirtualMem.storeBytesLoop (bits : Nat) : VirtualMem → Nat → List Nat → VirtualMem
  | m, _, [] => m
  | m, addr, c :: rest =>
    VirtualMem.storeBytesLoop bits (m.storeByte bits addr c) ((addr + 1) % ADDR_SPACE) rest

/-- Models the `while (length != 0)` loop of `VirtualMem::IncrementOccupiedValue`.
The source's `continue` after `SetFreeMemoryPtr(addr)` re-enters the loop on the
same page in the `addr == unoccupied_mem` case, so that path is inlined here.
`fuel` bounds the number of iterations: on the states reachable from the public
interface every iteration strictly decreases `length`, so the
`fuel = length` used by `incrementOccupiedValue` below never runs out. -/
def VirtualMem.incOccLoop (bits : Nat) : Nat → VirtualMem → Nat → Nat → VirtualMem
  | 0, m, _, _ => m
  | fuel + 1, m, addr, length =>
    if length = 0 then m
    else
      let pid := GetPageIdByAddress bits addr
      let page := m.getPageD pid
      let page_start := addr &&& ID_MASK bits
      let unocc := page_start + page.freePtr
      if addr < unocc then
        -- length -= min(length, unoccupied_mem - addr); addr = unoccupied_mem
        let length1 := length - min length (unocc - addr)
        let fms := pageSize bits - page.freePtr
        if fms < length1 then
          VirtualMem.incOccLoop bits fuel
            (m.setPage pid { page with freePtr := page.freePtr + fms })
            ((unocc + fms) % ADDR_SPACE) (length1 - fms)
        else m.setPage pid { page with freePtr := page.freePtr + length1 }
      else
        -- addr > unoccupied_mem: SetFreeMemoryPtr(addr), then continue re-enters
        -- the loop with addr == unoccupied_mem on the same page
        let fp1 := if unocc < addr then addr - page_start else page.freePtr
        let fms := pageSize bits - fp1
        if fms < length then
          VirtualMem.incOccLoop bits fuel
            (m.setPage pid { page with freePtr := fp1 + fms })
            ((addr + fms) % ADDR_SPACE) (length - fms)
        else m.setPage pid { page with freePtr := fp1 + length }

/-- Models `VirtualMem::IncrementOccupiedValue` (the loop above with enough fuel). -/
def VirtualMem.incrementOccupiedValue (bits : Nat) (m : VirtualMem) (addr length : Nat) :
    VirtualMem :=
  VirtualMem.incOccLoop bits length m addr length

/-- Models `VirtualMem::StoreByteSequence`: stores the bytes one at a time, then
updates the occupancy bookkeeping, and returns `true`. -/
def VirtualMem.storeByteSequence (bits : Nat) (m : VirtualMem) (addr : Nat) (chrs : List Nat) :
    VirtualMem × Bool :=
  ((VirtualMem.storeBytesLoop bits m addr chrs).incrementOccupiedValue bits addr chrs.length,
    true)

/-- Models `VirtualMem::LoadByteSequence`: `arr[i] = LoadByte(addr + i)`; a page
fault anywhere aborts the process (`none`). -/
def VirtualMem.loadByteSequence (bits : Nat) (m : VirtualMem) : Nat → Nat → Option (List Nat)
  | _, 0 => some []
  | addr, n + 1 =>
    match m.loadByte bits addr, m.loadByteSequence bits ((addr + 1) % ADDR_SPACE) n with
    | some b, some rest => some (b :: rest)
    | _, _ => none

/-- A sequence of `StoreByteSequence` calls, applied in order. -/
def applyStoreOps (bits : Nat) : VirtualMem → List (Nat × List Nat) → VirtualMem
  | m, [] => m
  | m, (a, s) :: rest => applyStoreOps bits (m.storeByteSequence bits a s).1 rest

/-- The free pointer of page `p` (0 while the page is unmapped). -/
def VirtualMem.freeOffOf (m : VirtualMem) (p : Nat) : Nat := (m.getPageD p).freePtr

/-- The byte stored at page `p`, offset `o` (0 while the page is unmapped). -/
def VirtualMem.readCell (m : VirtualMem) (p o : Nat) : Nat := (m.getPageD p).data o

/-- Whether the page with id `p` is mapped. -/
def VirtualMem.mapped (m : VirtualMem) (p : Nat) : Bool := (m.pages p).isSome

/-- Modelled from the spec (missing `PhysMem` header): `PhysMem::AtOnePage(offset,
size)` is true iff `[offset, offset + size)` does not cross the page boundary. -/
def AtOnePage (bits offset size : Nat) : Bool := decide (offset + size ≤ pageSize bits)

/-- Host little-endian write of `n` bytes of `value` into one page starting at
offset `off`: models the aligned `*reinterpret_cast<uintN_t *>(ptr) = value`
store of the fast path. -/
def Page.writeLE : Page → Nat → Nat → Nat → Page
  | pg, _, 0, _ => pg
  | pg, off, n + 1, value =>
    Page.writeLE (pg.setByte off (value % 256)) (off + 1) n (value / 256)

/-- Host little-endian read of `n` bytes from one page starting at offset `off`:
models the aligned `*reinterpret_cast<uintN_t *>(ptr)` load of the fast path. -/
def Page.readLE (pg : Page) : Nat → Nat → Nat
  | _, 0 => 0
  | off, n + 1 => pg.data off + 256 * pg.readLE (off + 1) n

/-- Models `VirtualMem::StoreTwoBytesFast`.  Faithful to the source: the
fast-path branch has no `return`/`else`, so after the aligned 16-bit store
control falls through to the two byte-decomposition stores as well. -/
def VirtualMem.storeTwoBytesFast (bits : Nat) (m : VirtualMem) (addr value : Nat) : VirtualMem :=
  let m1 :=
    if AtOnePage bits (GetPageOffsetByAddress bits addr) 2 then
      let pid := GetPageIdByAddress bits addr
      m.setPage pid ((m.getPageD pid).writeLE (GetPageOffsetByAddress bits addr) 2 value)
    else m
  let lower := value &&& (2 ^ 8 - 1)
  let upper := (value &&& ((2 ^ 8 - 1) <<< 8)) >>> 8
  (m1.storeByte bits addr lower).storeByte bits ((addr + 1) % ADDR_SPACE) upper

/-- Models `VirtualMem::LoadTwoBytesFast`: aligned 16-bit load (and `return`)
when the access fits in one page, otherwise two byte loads combined with
`|` and `<<`.  A page fault is `none`. -/
def VirtualMem.loadTwoBytesFast (bits : Nat) (m : VirtualMem) (addr : Nat) : Option Nat :=
  if AtOnePage bits (GetPageOffsetByAddress bits addr) 2 then
    match m.pages (GetPageIdByAddress bits addr) with
    | none => none
    | some pg => some (pg.readLE (GetPageOffsetByAddress bits addr) 2)
  else
    match m.loadByte bits addr, m.loadByte bits ((addr + 1) % ADDR_SPACE) with
    | some b0, some b1 => some (b0 ||| (b1 <<< 8))
    | _, _ => none

/-- Models `VirtualMem::StoreFourBytesFast` (same fall-through as the two-byte
store: the aligned 32-bit store is followed by the two half-width stores). -/
def VirtualMem.storeFourBytesFast (bits : Nat) (m : VirtualMem) (addr value : Nat) : VirtualMem :=
  let m1 :=
    if AtOnePage bits (GetPageOffsetByAddress bits addr) 4 then
      let pid := GetPageIdByAddress bits addr
      m.setPage pid ((m.getPageD pid).writeLE (GetPageOffsetByAddress bits addr) 4 value)
    else m
  let lower := value &&& (2 ^ 16 - 1)
  let upper := (value &&& ((2 ^ 16 - 1) <<< 16)) >>> 16
  (m1.storeTwoBytesFast bits addr lower).storeTwoBytesFast bits ((addr + 2) % ADDR_SPACE) upper

/-- Models `VirtualMem::LoadFourBytesFast`. -/
def VirtualMem.loadFourBytesFast (bits : Nat) (m : VirtualMem) (addr : Nat) : Option Nat :=
  if AtOnePage bits (GetPageOffsetByAddress bits addr) 4 then
    match m.pages (GetPageIdByAddress bits addr) with
    | none => none
    | some pg => some (pg.readLE (GetPageOffsetByAddress bits addr) 4)
  else
    match m.loadTwoBytesFast bits addr, m.loadTwoBytesFast bits ((addr + 2) % ADDR_SPACE) with
    | some lo, some hi => some (lo ||| (hi <<< 16))
    | _, _ => none

/-- Models `VirtualMem::StoreEightBytesFast` (same fall-through as above). -/
def VirtualMem.storeEightBytesFast (bits : Nat) (m : VirtualMem) (addr value : Nat) : VirtualMem :=
  let m1 :=
    if AtOnePage bits (GetPageOffsetByAddress bits addr) 8 then
      let pid := GetPageIdByAddress bits addr
      m.setPage pid ((m.getPageD pid).writeLE (GetPageOffsetByAddress bits addr) 8 value)
    else m
  let lower := value &&& (2 ^ 32 - 1)
  let upper := (value &&& ((2 ^ 32 - 1) <<< 32)) >>> 32
  (m1.storeFourBytesFast bits addr lower).storeFourBytesFast bits ((addr + 4) % ADDR_SPACE) upper

/-- Models `VirtualMem::LoadEightBytesFast`. -/
def VirtualMem.loadEightBytesFast (bits : Nat) (m : VirtualMem) (addr : Nat) : Option Nat :=
  if AtOnePage bits (GetPageOffsetByAddress bits addr) 8 then
    match m.pages (GetPageIdByAddress bits addr) with
    | none => none
    | some pg => some (pg.readLE (GetPageOffsetByAddress bits addr) 8)
  else
    match m.loadFourBytesFast bits addr, m.loadFourBytesFast bits ((addr + 4) % ADDR_SPACE) with
    | some lo, some hi => some (lo ||| (hi <<< 32))
    | _, _ => none

/-- The little-endian decomposition of `value` into `n` bytes: the byte values,
in the order in which the slow path issues its single-byte stores. -/
def leBytes : Nat → Nat → List Nat
  | 0, _ => []
  | n + 1, value => value % 256 :: leBytes n (value / 256)

/-- One observable memory access of the multi-byte helpers: a single aligned
`n`-byte access, or one access bottoming out at `StoreByte`/`LoadByte`. -/
inductive MemAccess where
  | wide (addr n : Nat)
  | byte (addr : Nat)
  deriving DecidableEq

/-- Models `VirtualMem::StoreTwoBytesFast` instrumented with the list of memory
accesses it performs, in source order. -/
def VirtualMem.storeTwoBytesFastTr (bits : Nat) (m : VirtualMem) (addr value : Nat) :
    VirtualMem × List MemAccess :=
  let fast :=
    if AtOnePage bits (GetPageOffsetByAddress bits addr) 2 then
      let pid := GetPageIdByAddress bits addr
      (m.setPage pid ((m.getPageD pid).writeLE (GetPageOffsetByAddress bits addr) 2 value),
        [MemAccess.wide addr 2])
    else (m, [])
  let lower := value &&& (2 ^ 8 - 1)
  let upper := (value &&& ((2 ^ 8 - 1) <<< 8)) >>> 8
  ((fast.1.storeByte bits addr lower).storeByte bits ((addr + 1) % ADDR_SPACE) upper,
    fast.2 ++ [MemAccess.byte addr, MemAccess.byte ((addr + 1) % ADDR_SPACE)])

/-- ELF constants from `<elf.h>` as used by the loader: magic byte 0. -/
def ELFMAG0 : Nat := 0x7f

/-- ELF magic byte 1 (`'E'`). -/
def ELFMAG1 : Nat := 0x45

/-- ELF magic byte 2 (`'L'`). -/
def ELFMAG2 : Nat := 0x4c

/-- ELF magic byte 3 (`'F'`). -/
def ELFMAG3 : Nat := 0x46

/-- ELF class: 64-bit objects. -/
def ELFCLASS64 : Nat := 2

/-- ELF data encoding: two's complement little-endian. -/
def ELFDATA2LSB : Nat := 1

/-- ELF machine type: RISC-V. -/
def EM_RISCV : Nat := 243

/-- Program-header type: loadable segment. -/
def PT_LOAD : Nat := 1

/-- The fields of `GElf_Ehdr` that the loader reads. -/
structure GElf_Ehdr where
  mag0 : Nat
  mag1 : Nat
  mag2 : Nat
  mag3 : Nat
  ei_class : Nat
  ei_data : Nat
  e_machine : Nat
  e_entry : Nat

/-- The fields of `GElf_Phdr` that the loader reads. -/
structure GElf_Phdr where
  p_type : Nat
  p_offset : Nat
  p_vaddr : Nat
  p_filesz : Nat
  p_memsz : Nat

/-- An ELF image as the loader sees it after libelf parsing: the header, the
program-header table, and the raw file bytes (what `pread` returns). -/
structure ElfFile where
  ehdr : GElf_Ehdr
  phdrs : List GElf_Phdr
  content : Nat → Nat

/-- Models `VirtualMem::validateElfHeader`: the `checkHeaderField` expansions in
source order; the first mismatch throws a field-specific `runtime_error`
(message text modelled without the source's apostrophe). -/
def validateElfHeader (ehdr : GElf_Ehdr) : Except String Unit :=
  if ehdr.mag0 ≠ ELFMAG0 then
    Except.error "e_ident[EI_MAG0] != ELFMAG0 in elf header we do not support it"
  else if ehdr.mag1 ≠ ELFMAG1 then
    Except.error "e_ident[EI_MAG1] != ELFMAG1 in elf header we do not support it"
  else if ehdr.mag2 ≠ ELFMAG2 then
    Except.error "e_ident[EI_MAG2] != ELFMAG2 in elf header we do not support it"
  else if ehdr.mag3 ≠ ELFMAG3 then
    Except.error "e_ident[EI_MAG3] != ELFMAG3 in elf header we do not support it"
  else if ehdr.ei_class ≠ ELFCLASS64 then
    Except.error "e_ident[EI_CLASS] != ELFCLASS64 in elf header we do not support it"
  else if ehdr.ei_data ≠ ELFDATA2LSB then
    Except.error "e_ident[EI_DATA] != ELFDATA2LSB in elf header we do not support it"
  else if ehdr.e_machine ≠ EM_RISCV then
    Except.error "e_machine != EM_RISCV in elf header we do not support it"
  else Except.ok ()

/-- The `p_filesz` bytes `pread` fetches from the file at offset `p_offset`. -/
def ElfFile.bytesAt (f : ElfFile) (off n : Nat) : List Nat :=
  (List.range n).map fun i => f.content (off + i)

/-- Models `VirtualMem::StoreElfFile` on an already-parsed image: validates the
header (a failure propagates as the thrown error, before any store, so memory
is left untouched), then walks the program headers, skipping entries whose
`p_type` is not `PT_LOAD` and storing `p_filesz` bytes read from file offset
`p_offset` at `p_vaddr` via `StoreByteSequence`; finally returns `e_entry`. -/
def VirtualMem.storeElfFile (bits : Nat) (m : VirtualMem) (f : ElfFile) :
    VirtualMem × Except String Nat :=
  match validateElfHeader f.ehdr with
  | Except.error e => (m, Except.error e)
  | Except.ok _ =>
    (f.phdrs.foldl
      (fun mm ph =>
        if ph.p_type ≠ PT_LOAD then mm
        else (mm.storeByteSequence bits ph.p_vaddr (f.bytesAt ph.p_offset ph.p_filesz)).1)
      m,
      Except.ok f.ehdr.e_entry)

/-- The rejection premise of the ELF claim: the machine type, class, data
encoding or one of the magic bytes does not match what the loader supports. -/
def headerRejected (e : GElf_Ehdr) : Prop :=
  e.e_machine ≠ EM_RISCV ∨ e.ei_class ≠ ELFCLASS64 ∨ e.ei_data ≠ ELFDATA2LSB ∨
    e.mag0 ≠ ELFMAG0 ∨ e.mag1 ≠ ELFMAG1 ∨ e.mag2 ≠ ELFMAG2 ∨ e.mag3 ≠ ELFMAG3

/-- The string `s` is one of the loader's field-specific messages and the field
it names really does mismatch in `e`. -/
def errorNamesMismatch (s : String) (e : GElf_Ehdr) : Prop :=
  (s = "e_ident[EI_MAG0] != ELFMAG0 in elf header we do not support it" ∧ e.mag0 ≠ ELFMAG0) ∨
  (s = "e_ident[EI_MAG1] != ELFMAG1 in elf header we do not support it" ∧ e.mag1 ≠ ELFMAG1) ∨
  (s = "e_ident[EI_MAG2] != ELFMAG2 in elf header we do not support it" ∧ e.mag2 ≠ ELFMAG2) ∨
  (s = "e_ident[EI_MAG3] != ELFMAG3 in elf header we do not support it" ∧ e.mag3 ≠ ELFMAG3) ∨
  (s = "e_ident[EI_CLASS] != ELFCLASS64 in elf header we do not support it" ∧
    e.ei_class ≠ ELFCLASS64) ∨
  (s = "e_ident[EI_DATA] != ELFDATA2LSB in elf header we do not support it" ∧
    e.ei_data ≠ ELFDATA2LSB) ∨
  (s = "e_machine != EM_RISCV in elf header we do not support it" ∧ e.e_machine ≠ EM_RISCV)

/-- The hart's external collaborators (fetch, decoder, executor) together with
its observable state, abstracted over the state type `σ` and the decoded
instruction type `ι`. -/
structure HartModel (σ ι : Type) where
  getPC : σ → Nat
  loadInstr : σ → Nat → Nat
  decodeInstr : Nat → ι
  runInstr : σ → ι → σ

/-- Models `Hart::RunInstr`: returns 1 without fetching when the PC is 0,
otherwise performs one fetch-decode-execute cycle and returns 0.  The list
records the fetch addresses (empty or singleton). -/
def hartRunInstr {σ ι : Type} (H : HartModel σ ι) (s : σ) : σ × Nat × List Nat :=
  if H.getPC s = 0 then (s, 1, [])
  else (H.runInstr s (H.decodeInstr (H.loadInstr s (H.getPC s))), 0, [H.getPC s])

/-- One body of the `do { … } while (pc != 0)` loop of `Hart::RunImpl(SIMPLE)`:
the state after the cycle, and the address the fetch was issued at. -/
def hartStep {σ ι : Type} (H : HartModel σ ι) (s : σ) : σ × Nat :=
  (H.runInstr s (H.decodeInstr (H.loadInstr s (H.getPC s))), H.getPC s)

/-- The `do { … } while (pc != 0)` loop with its instruction counter: final
state, counter and fetch trace; `none` when `fuel` bodies do not reach PC 0
(the source loop would still be running). -/
def runSimpleLoop {σ ι : Type} (H : HartModel σ ι) : Nat → σ → Option (σ × Nat × List Nat)
  | 0, _ => none
  | fuel + 1, s =>
    let s1 := (hartStep H s).1
    if H.getPC s1 = 0 then some (s1, 1, [(hartStep H s).2])
    else
      match runSimpleLoop H fuel s1 with
      | none => none
      | some (t, c, tr) => some (t, c + 1, (hartStep H s).2 :: tr)

/-- The run modes of `Hart::RunImpl`. -/
inductive Mode where
  | SIMPLE
  | BB
  | NONE
  deriving DecidableEq

/-- One instrumentation line: instruction count, elapsed time, or MIPS. -/
inductive OutLine where
  | instrCount (n : Nat)
  | execTime (dur : Nat)
  | mips (n dur : Nat)
  deriving DecidableEq

/-- The three instrumentation lines printed when measuring; `dur` is the
wall-clock duration measured by the external clock. -/
def measureLines (counter dur : Nat) : List OutLine :=
  [OutLine.instrCount counter, OutLine.execTime dur, OutLine.mips counter dur]

/-- Models `Hart::RunImpl(mode, need_to_measure)`: SIMPLE runs the do-while
loop; the BB body is entirely commented out and NONE (like the default branch)
only prints a diagnostic, so both leave the counter at 0; afterwards the three
measurement lines are emitted iff `need_to_measure` is set. -/
def hartRunImpl {σ ι : Type} (H : HartModel σ ι) (mode : Mode) (need_to_measure : Bool)
    (fuel : Nat) (s : σ) (dur : Nat) : Option (σ × Nat × List OutLine) :=
  match mode with
  | Mode.SIMPLE =>
    match runSimpleLoop H fuel s with
    | none => none
    | some (s1, c, _) => some (s1, c, if need_to_measure then measureLines c dur else [])
  | Mode.BB => some (s, 0, if need_to_measure then measureLines 0 dur else [])
  | Mode.NONE => some (s, 0, if need_to_measure then measureLines 0 dur else [])

/-- `n` executions of the loop body starting from `s`. -/
def stepIter {σ ι : Type} (H : HartModel σ ι) : σ → Nat → σ
  | s, 0 => s
  | s, n + 1 => stepIter H (hartStep H s).1 n

/-- A degenerate hart whose executor always sets the PC to 0; its state is the
PC itself.  Used to exhibit the do-while loop entered with PC already 0. -/
def haltedHart : HartModel Nat Nat :=
  ⟨id, fun _ _ => 0, id, fun _ _ => 0⟩

/-- A five-instruction straight-line hart: the PC starts at 4 and advances by 4;
the fifth instruction (at PC 20) sets the PC to 0. -/
def fiveInstrHart : HartModel Nat Nat :=
  ⟨id, fun _ _ => 0, id, fun pc _ => if pc = 20 then 0 else pc + 4⟩

/-- A well-formed 64-bit little-endian RISC-V ELF header with entry point
`0x1000`. -/
def goodEhdr : GElf_Ehdr := ⟨0x7f, 0x45, 0x4c, 0x46, 2, 1, 243, 0x1000⟩

/-- A LOAD program header with `p_filesz = 1` strictly larger than
`p_memsz = 0`, placed at `p_vaddr = 0`, `p_offset = 0`. -/
def overFileszPhdr : GElf_Phdr := ⟨1, 0, 0, 1, 0⟩

/-- An ELF image whose single LOAD segment has `p_filesz > p_memsz`; every file
byte is `7`. -/
def overFileszElf : ElfFile := ⟨goodEhdr, [overFileszPhdr], fun _ => 7⟩

/-- An ELF header that is well-formed except for a non-RISC-V machine type
(`EM_X86_64 = 62`). -/
def badMachineEhdr : GElf_Ehdr := ⟨0x7f, 0x45, 0x4c, 0x46, 2, 1, 62, 0⟩

/-- An image carrying `badMachineEhdr` and one LOAD segment. -/
def badMachineElf : ElfFile := ⟨badMachineEhdr, [⟨1, 0, 0, 4, 4⟩], fun _ => 9⟩

/-! ### Bit-level characterization of the address split -/

theorem testBit_two_pow_sub_two_pow {n k : Nat} (hk : k ≤ n) (j : Nat) :
    (2 ^ n - 2 ^ k).testBit j = (decide (k ≤ j) && decide (j < n)) := by
  have e : 2 ^ k * 2 ^ (n - k) = 2 ^ n := by
    rw [← Nat.pow_add]
    congr 1
    omega
  have h : 2 ^ n - 2 ^ k = 2 ^ k * (2 ^ (n - k) - 1) := by
    rw [Nat.mul_sub, Nat.mul_one, e]
  rw [h, Nat.testBit_mul_pow_two, Nat.testBit_two_pow_sub_one]
  by_cases h1 : k ≤ j <;> by_cases h2 : j < n <;>
    simp [h1, h2, ge_iff_le] <;> omega

theorem GetPageOffsetByAddress_eq (bits addr : Nat) :
    GetPageOffsetByAddress bits addr = addr % 2 ^ bits := by
  unfold GetPageOffsetByAddress OFFSET_MASK
  exact Nat.and_pow_two_sub_one_eq_mod addr bits

theorem GetPageIdByAddress_eq (bits addr : Nat) (hb : bits ≤ 64) :
    GetPageIdByAddress bits addr = addr % 2 ^ 64 / 2 ^ bits := by
  apply Nat.eq_of_testBit_eq
  intro i
  rw [GetPageIdByAddress, ID_MASK, Nat.testBit_shiftRight, Nat.testBit_and,
    testBit_two_pow_sub_two_pow hb, ← Nat.shiftRight_eq_div_pow, Nat.testBit_shiftRight,
    Nat.testBit_mod_two_pow]
  by_cases h1 : bits + i < 64 <;> by_cases h2 : addr.testBit (bits + i) <;>
    simp [h1, h2]

theorem GetPageIdByAddress_eq_div {bits addr : Nat} (hb : bits ≤ 64) (ha : addr < ADDR_SPACE) :
    GetPageIdByAddress bits addr = addr / 2 ^ bits := by
  have ha2 : addr < 2 ^ 64 := ha
  rw [GetPageIdByAddress_eq bits addr hb, Nat.mod_eq_of_lt ha2]

theorem land_ID_MASK_eq {bits addr : Nat} (hb : bits ≤ 64) (ha : addr < ADDR_SPACE) :
    addr &&& ID_MASK bits = 2 ^ bits * (addr / 2 ^ bits) := by
  apply Nat.eq_of_testBit_eq
  intro j
  rw [ID_MASK, Nat.testBit_and, testBit_two_pow_sub_two_pow hb, Nat.testBit_mul_pow_two,
    ← Nat.shiftRight_eq_div_pow, Nat.testBit_shiftRight]
  by_cases h1 : bits ≤ j
  · have hbj : bits + (j - bits) = j := by omega
    rw [hbj]
    by_cases h2 : j < 64
    · simp [h1, h2, ge_iff_le]
    · have hf : addr.testBit j = false := by
        apply Nat.testBit_lt_two_pow
        exact lt_of_lt_of_le ha (Nat.pow_le_pow_right (by norm_num) (by omega))
      simp [hf, h1, h2]
  · simp [h1, ge_iff_le]

/-- Splitting an address into page id and offset is injective on the 64-bit
address space. -/
theorem cell_inj {bits x y : Nat} (hb : bits ≤ 64) (hx : x < ADDR_SPACE) (hy : y < ADDR_SPACE)
    (hpid : GetPageIdByAddress bits x = GetPageIdByAddress bits y)
    (hoff : GetPageOffsetByAddress bits x = GetPageOffsetByAddress bits y) : x = y := by
  rw [GetPageIdByAddress_eq_div hb hx, GetPageIdByAddress_eq_div hb hy] at hpid
  rw [GetPageOffsetByAddress_eq, GetPageOffsetByAddress_eq] at hoff
  have h1 := Nat.div_add_mod x (2 ^ bits)
  have h2 := Nat.div_add_mod y (2 ^ bits)
  rw [hpid, hoff] at h1
  omega

/-- An in-page advance by `k` keeps the page id and advances the offset;
the advanced address neither wraps nor leaves the 64-bit space. -/
theorem pid_off_add {bits addr k : Nat} (hb : bits ≤ 64) (ha : addr < ADDR_SPACE)
    (h : GetPageOffsetByAddress bits addr + k < 2 ^ bits) :
    addr + k < ADDR_SPACE ∧
    GetPageIdByAddress bits (addr + k) = GetPageIdByAddress bits addr ∧
    GetPageOffsetByAddress bits (addr + k) = GetPageOffsetByAddress bits addr + k := by
  rw [GetPageOffsetByAddress_eq] at h
  have hq := Nat.div_add_mod addr (2 ^ bits)
  have hpos : 0 < 2 ^ bits := Nat.pos_pow_of_pos bits (by norm_num)
  have h3 : 2 ^ bits * 2 ^ (64 - bits) = 2 ^ 64 := by
    rw [← Nat.pow_add]
    congr 1
    omega
  have hql : addr / 2 ^ bits < 2 ^ (64 - bits) := by
    apply Nat.div_lt_of_lt_mul
    have ha2 : addr < 2 ^ 64 := ha
    omega
  have hsplit : addr + k = (addr % 2 ^ bits + k) + 2 ^ bits * (addr / 2 ^ bits) := by omega
  have hlt : addr + k < ADDR_SPACE := by
    have hm : 2 ^ bits * (addr / 2 ^ bits) + 2 ^ bits ≤ 2 ^ bits * 2 ^ (64 - bits) := by
      have hmm := Nat.mul_le_mul_left (2 ^ bits) (Nat.succ_le_of_lt hql)
      rw [Nat.mul_succ] at hmm
      exact hmm
    show addr + k < 2 ^ 64
    omega
  refine ⟨hlt, ?_, ?_⟩
  · rw [GetPageIdByAddress_eq_div hb hlt, GetPageIdByAddress_eq_div hb ha, hsplit,
      Nat.add_mul_div_left _ _ hpos, Nat.div_eq_of_lt h]
    omega
  · rw [GetPageOffsetByAddress_eq, GetPageOffsetByAddress_eq, hsplit,
      Nat.add_mul_mod_self_left, Nat.mod_eq_of_lt h]

/-! ### Cell-level view of the byte primitives -/

theorem getPageD_setPage_self (m : VirtualMem) (p : Nat) (pg : Page) :
    (m.setPage p pg).getPageD p = pg := by
  simp [VirtualMem.getPageD, VirtualMem.setPage]

theorem setPage_setPage (m : VirtualMem) (p : Nat) (a b : Page) :
    (m.setPage p a).setPage p b = m.setPage p b := by
  unfold VirtualMem.setPage
  simp only [VirtualMem.mk.injEq]
  funext q
  by_cases h : q = p <;> simp [h]

theorem loadByte_eq (bits : Nat) (m : VirtualMem) (addr : Nat) :
    m.loadByte bits addr =
      if m.mapped (GetPageIdByAddress bits addr) then
        some (m.readCell (GetPageIdByAddress bits addr) (GetPageOffsetByAddress bits addr))
      else none := by
  unfold VirtualMem.loadByte VirtualMem.mapped VirtualMem.readCell VirtualMem.getPageD
  cases m.pages (GetPageIdByAddress bits addr) <;> simp

theorem readCell_storeByte (bits : Nat) (m : VirtualMem) (addr v p o : Nat) :
    (m.storeByte bits addr v).readCell p o =
      if p = GetPageIdByAddress bits addr ∧ o = GetPageOffsetByAddress bits addr then v % 256
      else m.readCell p o := by
  unfold VirtualMem.storeByte VirtualMem.readCell VirtualMem.setPage VirtualMem.getPageD
    Page.setByte
  by_cases hp : p = GetPageIdByAddress bits addr
  · by_cases ho : o = GetPageOffsetByAddress bits addr <;> simp [hp, ho]
  · simp [hp]

theorem mapped_storeByte (bits : Nat) (m : VirtualMem) (addr v p : Nat) :
    (m.storeByte bits addr v).mapped p =
      (decide (p = GetPageIdByAddress bits addr) || m.mapped p) := by
  unfold VirtualMem.storeByte VirtualMem.mapped VirtualMem.setPage
  by_cases hp : p = GetPageIdByAddress bits addr <;> simp [hp]

theorem freeOffOf_storeByte (bits : Nat) (m : VirtualMem) (addr v p : Nat) :
    (m.storeByte bits addr v).freeOffOf p = m.freeOffOf p := by
  unfold VirtualMem.storeByte VirtualMem.freeOffOf VirtualMem.setPage VirtualMem.getPageD
    Page.setByte
  by_cases hp : p = GetPageIdByAddress bits addr <;> simp [hp]

/-! ### The StoreByteSequence loop -/

theorem add_mod_ne_self {addr d : Nat} (ha : addr < ADDR_SPACE) (hd0 : 0 < d)
    (hd : d < ADDR_SPACE) : (addr + d) % ADDR_SPACE ≠ addr := by
  unfold ADDR_SPACE at *
  intro h
  omega

theorem shift_mod_add (addr i : Nat) :
    ((addr + 1) % ADDR_SPACE + i) % ADDR_SPACE = (addr + (i + 1)) % ADDR_SPACE := by
  rw [Nat.mod_add_mod]
  congr 1
  omega

theorem add_zero_mod {addr : Nat} (ha : addr < ADDR_SPACE) : (addr + 0) % ADDR_SPACE = addr := by
  rw [Nat.add_zero, Nat.mod_eq_of_lt ha]

theorem freeOffOf_storeBytesLoop (bits : Nat) (s : List Nat) :
    ∀ (m : VirtualMem) (addr p : Nat),
      (VirtualMem.storeBytesLoop bits m addr s).freeOffOf p = m.freeOffOf p := by
  induction s with
  | nil => intro m addr p; rfl
  | cons c rest ih =>
    intro m addr p
    simp only [VirtualMem.storeBytesLoop]
    rw [ih, freeOffOf_storeByte]

theorem mapped_storeBytesLoop_mono (bits : Nat) (s : List Nat) :
    ∀ (m : VirtualMem) (addr p : Nat), m.mapped p = true →
      (VirtualMem.storeBytesLoop bits m addr s).mapped p = true := by
  induction s with
  | nil => intro m addr p h; exact h
  | cons c rest ih =>
    intro m addr p h
    simp only [VirtualMem.storeBytesLoop]
    apply ih
    rw [mapped_storeByte, h, Bool.or_true]

theorem readCell_storeBytesLoop_out (bits : Nat) (s : List Nat) :
    ∀ (m : VirtualMem) (addr p o : Nat), addr < ADDR_SPACE →
      (∀ i, i < s.length →
        ¬(p = GetPageIdByAddress bits ((addr + i) % ADDR_SPACE) ∧
          o = GetPageOffsetByAddress bits ((addr + i) % ADDR_SPACE))) →
      (VirtualMem.storeBytesLoop bits m addr s).readCell p o = m.readCell p o := by
  induction s with
  | nil => intro m addr p o _ _; rfl
  | cons c rest ih =>
    intro m addr p o ha hfr
    simp only [VirtualMem.storeBytesLoop]
    have hfr2 : ∀ i, i < rest.length →
        ¬(p = GetPageIdByAddress bits (((addr + 1) % ADDR_SPACE + i) % ADDR_SPACE) ∧
          o = GetPageOffsetByAddress bits (((addr + 1) % ADDR_SPACE + i) % ADDR_SPACE)) := by
      intro i hi
      rw [shift_mod_add]
      exact hfr (i + 1) (by simpa using Nat.succ_lt_succ hi)
    rw [ih _ _ _ _ (Nat.mod_lt _ (by unfold ADDR_SPACE; norm_num)) hfr2, readCell_storeByte,
      if_neg ?_]
    have h0 := hfr 0 (by simp)
    rwa [add_zero_mod ha] at h0

theorem readCell_storeBytesLoop_at (bits : Nat) (hb : bits ≤ 64) (s : List Nat) :
    ∀ (m : VirtualMem) (addr : Nat), addr < ADDR_SPACE → s.length ≤ ADDR_SPACE →
      ∀ i, i < s.length →
      (VirtualMem.storeBytesLoop bits m addr s).readCell
          (GetPageIdByAddress bits ((addr + i) % ADDR_SPACE))
          (GetPageOffsetByAddress bits ((addr + i) % ADDR_SPACE))
        = s.getD i 0 % 256 := by
  induction s with
  | nil => intro m addr _ _ i hi; exact absurd hi (by simp)
  | cons c rest ih =>
    intro m addr ha hlen i hi
    simp only [VirtualMem.storeBytesLoop]
    match i with
    | 0 =>
      have hfr2 : ∀ j, j < rest.length →
          ¬(GetPageIdByAddress bits ((addr + 0) % ADDR_SPACE)
              = GetPageIdByAddress bits (((addr + 1) % ADDR_SPACE + j) % ADDR_SPACE) ∧
            GetPageOffsetByAddress bits ((addr + 0) % ADDR_SPACE)
              = GetPageOffsetByAddress bits (((addr + 1) % ADDR_SPACE + j) % ADDR_SPACE)) := by
        intro j hj hcell
        rw [shift_mod_add, add_zero_mod ha] at hcell
        have hmlt : (addr + (j + 1)) % ADDR_SPACE < ADDR_SPACE :=
          Nat.mod_lt _ (by unfold ADDR_SPACE; norm_num)
        have heq := cell_inj hb ha hmlt hcell.1 hcell.2
        have hd : (addr + (j + 1)) % ADDR_SPACE ≠ addr := by
          apply add_mod_ne_self ha (by omega)
          have hr1 : rest.length + 1 ≤ ADDR_SPACE := by simpa using hlen
          omega
        exact hd heq.symm
      rw [readCell_storeBytesLoop_out bits rest _ _ _ _
          (Nat.mod_lt _ (by unfold ADDR_SPACE; norm_num)) hfr2, readCell_storeByte, if_pos ?_]
      · simp
      · rw [add_zero_mod ha]
        exact ⟨rfl, rfl⟩
    | i' + 1 =>
      have hrec := ih (m.storeByte bits addr c) ((addr + 1) % ADDR_SPACE)
        (Nat.mod_lt _ (by unfold ADDR_SPACE; norm_num)) (by simp at hlen; omega)
        i' (by simpa using Nat.lt_of_succ_lt_succ hi)
      rw [shift_mod_add] at hrec
      simpa using hrec

theorem mapped_storeBytesLoop_at (bits : Nat) (s : List Nat) :
    ∀ (m : VirtualMem) (addr : Nat), addr < ADDR_SPACE →
      ∀ i, i < s.length →
      (VirtualMem.storeBytesLoop bits m addr s).mapped
        (GetPageIdByAddress bits ((addr + i) % ADDR_SPACE)) = true := by
  induction s with
  | nil => intro m addr _ i hi; exact absurd hi (by simp)
  | cons c rest ih =>
    intro m addr ha i hi
    simp only [VirtualMem.storeBytesLoop]
    match i with
    | 0 =>
      apply mapped_storeBytesLoop_mono
      rw [add_zero_mod ha, mapped_storeByte]
      simp
    | i' + 1 =>
      have hrec := ih (m.storeByte bits addr c) ((addr + 1) % ADDR_SPACE)
        (Nat.mod_lt _ (by unfold ADDR_SPACE; norm_num)) i'
        (by simpa using Nat.lt_of_succ_lt_succ hi)
      rw [shift_mod_add] at hrec
      exact hrec

theorem loadByte_after_storeBytesLoop (bits : Nat) (hb : bits ≤ 64) (s : List Nat)
    (m : VirtualMem) (addr : Nat) (ha : addr < ADDR_SPACE) (hlen : s.length ≤ ADDR_SPACE)
    (i : Nat) (hi : i < s.length) :
    (VirtualMem.storeBytesLoop bits m addr s).loadByte bits ((addr + i) % ADDR_SPACE)
      = some (s.getD i 0 % 256) := by
  rw [loadByte_eq, if_pos, readCell_storeBytesLoop_at bits hb s m addr ha hlen i hi]
  rw [mapped_storeBytesLoop_at bits s m addr ha i hi]

theorem loadByteSequence_of_loadByte (bits : Nat) (s : List Nat) :
    ∀ (m : VirtualMem) (addr : Nat), addr < ADDR_SPACE →
      (∀ i, i < s.length → m.loadByte bits ((addr + i) % ADDR_SPACE) = some (s.getD i 0)) →
      m.loadByteSequence bits addr s.length = some s := by
  induction s with
  | nil => intro m addr _ _; rfl
  | cons c rest ih =>
    intro m addr ha h
    have h0 := h 0 (by simp)
    rw [add_zero_mod ha] at h0
    have hr := ih m ((addr + 1) % ADDR_SPACE)
      (Nat.mod_lt _ (by unfold ADDR_SPACE; norm_num))
      (fun i hi => by
        rw [shift_mod_add]
        exact h (i + 1) (by simpa using Nat.succ_lt_succ hi))
    simp only [List.length_cons, VirtualMem.loadByteSequence]
    rw [h0, hr]
    simp

/-! ### IncrementOccupiedValue -/

theorem freeOffOf_setPage (m : VirtualMem) (pid : Nat) (pg : Page) (p : Nat) :
    (m.setPage pid pg).freeOffOf p = if p = pid then pg.freePtr else m.freeOffOf p := by
  unfold VirtualMem.freeOffOf VirtualMem.setPage VirtualMem.getPageD
  by_cases h : p = pid <;> simp [h]

theorem readCell_setPage (m : VirtualMem) (pid : Nat) (pg : Page) (p o : Nat) :
    (m.setPage pid pg).readCell p o = if p = pid then pg.data o else m.readCell p o := by
  unfold VirtualMem.readCell VirtualMem.setPage VirtualMem.getPageD
  by_cases h : p = pid <;> simp [h]

theorem mapped_setPage (m : VirtualMem) (pid : Nat) (pg : Page) (p : Nat) :
    (m.setPage pid pg).mapped p = (decide (p = pid) || m.mapped p) := by
  unfold VirtualMem.mapped VirtualMem.setPage
  by_cases h : p = pid <;> simp [h]

theorem incOccLoop_zero (bits fuel : Nat) (m : VirtualMem) (addr : Nat) :
    VirtualMem.incOccLoop bits fuel m addr 0 = m := by
  cases fuel <;> simp [VirtualMem.incOccLoop]

theorem getPageD_setPage (m : VirtualMem) (pid : Nat) (pg : Page) (p : Nat) :
    (m.setPage pid pg).getPageD p = if p = pid then pg else m.getPageD p := by
  unfold VirtualMem.getPageD VirtualMem.setPage
  by_cases h : p = pid <;> simp [h]

theorem readCell_incOccLoop (bits : Nat) :
    ∀ (fuel : Nat) (m : VirtualMem) (addr length p o : Nat),
      (VirtualMem.incOccLoop bits fuel m addr length).readCell p o = m.readCell p o := by
  intro fuel
  induction fuel with
  | zero => intro m addr length p o; rfl
  | succ f ih =>
    intro m addr length p o
    simp only [VirtualMem.incOccLoop]
    split
    · rfl
    · split <;> (try split) <;> (try split) <;> (try rw [ih]) <;>
        rw [readCell_setPage] <;> split <;>
        simp_all [VirtualMem.readCell]

theorem mapped_incOccLoop_mono (bits : Nat) :
    ∀ (fuel : Nat) (m : VirtualMem) (addr length p : Nat), m.mapped p = true →
      (VirtualMem.incOccLoop bits fuel m addr length).mapped p = true := by
  intro fuel
  induction fuel with
  | zero => intro m addr length p h; exact h
  | succ f ih =>
    intro m addr length p h
    simp only [VirtualMem.incOccLoop]
    split
    · exact h
    · split <;> (try split) <;> (try split) <;> (try apply ih) <;>
        rw [mapped_setPage, h, Bool.or_true]

/-- Page ids and offsets of an address lying inside the page of `addr`. -/
theorem cover_in_page {bits x a : Nat} (hb : bits ≤ 64)
    (hx1 : 2 ^ bits * (a / 2 ^ bits) ≤ x)
    (hx2 : x < 2 ^ bits * (a / 2 ^ bits) + 2 ^ bits) (hxAS : x < ADDR_SPACE) :
    GetPageIdByAddress bits x = a / 2 ^ bits ∧
    GetPageOffsetByAddress bits x = x - 2 ^ bits * (a / 2 ^ bits) := by
  have hP0 : 0 < 2 ^ bits := Nat.pos_pow_of_pos bits (by norm_num)
  have hdiv : x / 2 ^ bits = a / 2 ^ bits := by
    apply Nat.div_eq_of_lt_le
    · rw [Nat.mul_comm]
      exact hx1
    · rw [Nat.succ_mul, Nat.mul_comm]
      exact hx2
  have hxm := Nat.div_add_mod x (2 ^ bits)
  constructor
  · rw [GetPageIdByAddress_eq_div hb hxAS, hdiv]
  · rw [GetPageOffsetByAddress_eq]
    rw [hdiv] at hxm
    omega

theorem incOccLoop_spec (bits : Nat) (hb : bits ≤ 64) :
    ∀ (fuel length : Nat) (m : VirtualMem) (addr : Nat),
      length ≤ fuel → addr + length ≤ ADDR_SPACE →
      (∀ p, m.freeOffOf p ≤ pageSize bits) →
      (∀ p, (VirtualMem.incOccLoop bits fuel m addr length).freeOffOf p ≤ pageSize bits) ∧
      (∀ p, m.freeOffOf p ≤ (VirtualMem.incOccLoop bits fuel m addr length).freeOffOf p) ∧
      (∀ x, addr ≤ x → x < addr + length →
        GetPageOffsetByAddress bits x <
          (VirtualMem.incOccLoop bits fuel m addr length).freeOffOf (GetPageIdByAddress bits x)) := by
  intro fuel
  induction fuel with
  | zero =>
    intro length m addr hlf hAS hinv
    have hl0 : length = 0 := Nat.le_zero.mp hlf
    subst hl0
    exact ⟨hinv, fun p => Nat.le_refl _, fun x hx1 hx2 => by omega⟩
  | succ f ih =>
    intro length m addr hlf hAS hinv
    by_cases hl0 : length = 0
    · subst hl0
      rw [incOccLoop_zero]
      exact ⟨hinv, fun p => Nat.le_refl _, fun x hx1 hx2 => by omega⟩
    · have hlen1 : 1 ≤ length := Nat.pos_of_ne_zero hl0
      have hP0 : 0 < 2 ^ bits := Nat.pos_pow_of_pos bits (by norm_num)
      have hPdef : pageSize bits = 2 ^ bits := rfl
      have haddr : addr < ADDR_SPACE := by omega
      have hq := Nat.div_add_mod addr (2 ^ bits)
      have hoffA : addr % 2 ^ bits < 2 ^ bits := Nat.mod_lt _ hP0
      have hmask : addr &&& ID_MASK bits = 2 ^ bits * (addr / 2 ^ bits) :=
        land_ID_MASK_eq hb haddr
      have hpidA : GetPageIdByAddress bits addr = addr / 2 ^ bits :=
        GetPageIdByAddress_eq_div hb haddr
      have hlink : m.freeOffOf (GetPageIdByAddress bits addr)
          = (m.getPageD (GetPageIdByAddress bits addr)).freePtr := rfl
      have hfp : (m.getPageD (GetPageIdByAddress bits addr)).freePtr ≤ 2 ^ bits := by
        have h1 := hinv (GetPageIdByAddress bits addr)
        rw [hPdef, hlink] at h1
        exact h1
      have hproj : ∀ (d : Nat → Nat) (v : Nat), (Page.mk d v).freePtr = v := fun _ _ => rfl
      have haddr2 : 2 ^ bits * (addr / 2 ^ bits) + 2 ^ bits ≤ ADDR_SPACE := by
        have h3 : 2 ^ bits * 2 ^ (64 - bits) = 2 ^ 64 := by
          rw [← Nat.pow_add]
          congr 1
          omega
        have hql : addr / 2 ^ bits < 2 ^ (64 - bits) := by
          apply Nat.div_lt_of_lt_mul
          have ha2 : addr < 2 ^ 64 := haddr
          omega
        have hm := Nat.mul_le_mul_left (2 ^ bits) (Nat.succ_le_of_lt hql)
        rw [Nat.mul_succ] at hm
        show 2 ^ bits * (addr / 2 ^ bits) + 2 ^ bits ≤ 2 ^ 64
        omega
      simp only [VirtualMem.incOccLoop, if_neg hl0, hmask]
      split
      next hlt =>
        split
        next hrec =>
          -- addr < unoccupied_mem and the tail spills into the next page
          have hmin : min length (2 ^ bits * (addr / 2 ^ bits)
              + (m.getPageD (GetPageIdByAddress bits addr)).freePtr - addr)
              = 2 ^ bits * (addr / 2 ^ bits)
                + (m.getPageD (GetPageIdByAddress bits addr)).freePtr - addr := by
            omega
          rw [hmin] at hrec ⊢
          have hfull : (m.getPageD (GetPageIdByAddress bits addr)).freePtr
              + (pageSize bits - (m.getPageD (GetPageIdByAddress bits addr)).freePtr)
              = pageSize bits := by
            omega
          have hstep : 2 ^ bits * (addr / 2 ^ bits)
              + (m.getPageD (GetPageIdByAddress bits addr)).freePtr
              + (pageSize bits - (m.getPageD (GetPageIdByAddress bits addr)).freePtr)
              = 2 ^ bits * (addr / 2 ^ bits) + pageSize bits := by
            omega
          rw [hfull, hstep]
          have hmod : (2 ^ bits * (addr / 2 ^ bits) + pageSize bits) % ADDR_SPACE
              = 2 ^ bits * (addr / 2 ^ bits) + pageSize bits := Nat.mod_eq_of_lt (by omega)
          rw [hmod]
          have hinv2 : ∀ p, (m.setPage (GetPageIdByAddress bits addr)
              { m.getPageD (GetPageIdByAddress bits addr) with
                freePtr := pageSize bits }).freeOffOf p ≤ pageSize bits := by
            intro p
            rw [freeOffOf_setPage]
            split
            next => rw [hproj]
            next => exact hinv p
          have hrec2 := ih (length - (2 ^ bits * (addr / 2 ^ bits)
              + (m.getPageD (GetPageIdByAddress bits addr)).freePtr - addr)
              - (pageSize bits - (m.getPageD (GetPageIdByAddress bits addr)).freePtr))
            (m.setPage (GetPageIdByAddress bits addr)
              { m.getPageD (GetPageIdByAddress bits addr) with freePtr := pageSize bits })
            (2 ^ bits * (addr / 2 ^ bits) + pageSize bits) (by omega) (by omega) hinv2
          refine ⟨hrec2.1, ?_, ?_⟩
          · intro p
            refine Nat.le_trans ?_ (hrec2.2.1 p)
            rw [freeOffOf_setPage]
            split
            next hp =>
              rw [hp, hproj]
              omega
            next hp => exact Nat.le_refl _
          · intro x hx1 hx2
            by_cases hxp : x < 2 ^ bits * (addr / 2 ^ bits) + pageSize bits
            · have hcov := cover_in_page (x := x) (a := addr) hb (by omega) (by omega)
                (by omega)
              rw [hcov.1, hcov.2]
              refine Nat.lt_of_lt_of_le ?_ (hrec2.2.1 (addr / 2 ^ bits))
              rw [freeOffOf_setPage, if_pos hpidA.symm, hproj]
              omega
            · exact hrec2.2.2 x (by omega) (by omega)
        next hrec =>
          -- addr < unoccupied_mem and the rest fits in this page
          refine ⟨?_, ?_, ?_⟩
          · intro p
            rw [freeOffOf_setPage]
            split
            next =>
              rw [hproj]
              omega
            next => exact hinv p
          · intro p
            rw [freeOffOf_setPage]
            split
            next hp =>
              rw [hp, hproj]
              omega
            next hp => exact Nat.le_refl _
          · intro x hx1 hx2
            have hcov := cover_in_page (x := x) (a := addr) hb (by omega) (by omega)
              (by omega)
            rw [hcov.1, hcov.2, freeOffOf_setPage, if_pos hpidA.symm, hproj]
            omega
      next hge =>
        have hfp1 : (if 2 ^ bits * (addr / 2 ^ bits)
              + (m.getPageD (GetPageIdByAddress bits addr)).freePtr < addr then
              addr - 2 ^ bits * (addr / 2 ^ bits)
            else (m.getPageD (GetPageIdByAddress bits addr)).freePtr)
            = addr - 2 ^ bits * (addr / 2 ^ bits) := by
          split
          next => rfl
          next hx => omega
        rw [hfp1]
        have hoffb : addr - 2 ^ bits * (addr / 2 ^ bits) < 2 ^ bits := by omega
        split
        next hrec =>
          -- the store starts at or past the free pointer and spills over
          have hstep : addr + (pageSize bits - (addr - 2 ^ bits * (addr / 2 ^ bits)))
              = 2 ^ bits * (addr / 2 ^ bits) + pageSize bits := by
            omega
          have hfull : addr - 2 ^ bits * (addr / 2 ^ bits)
              + (pageSize bits - (addr - 2 ^ bits * (addr / 2 ^ bits)))
              = pageSize bits := by
            omega
          rw [hstep, hfull]
          have hmod : (2 ^ bits * (addr / 2 ^ bits) + pageSize bits) % ADDR_SPACE
              = 2 ^ bits * (addr / 2 ^ bits) + pageSize bits := Nat.mod_eq_of_lt (by omega)
          rw [hmod]
          have hinv2 : ∀ p, (m.setPage (GetPageIdByAddress bits addr)
              { m.getPageD (GetPageIdByAddress bits addr) with
                freePtr := pageSize bits }).freeOffOf p ≤ pageSize bits := by
            intro p
            rw [freeOffOf_setPage]
            split
            next => rw [hproj]
            next => exact hinv p
          have hrec2 := ih
            (length - (pageSize bits - (addr - 2 ^ bits * (addr / 2 ^ bits))))
            (m.setPage (GetPageIdByAddress bits addr)
              { m.getPageD (GetPageIdByAddress bits addr) with freePtr := pageSize bits })
            (2 ^ bits * (addr / 2 ^ bits) + pageSize bits) (by omega) (by omega) hinv2
          refine ⟨hrec2.1, ?_, ?_⟩
          · intro p
            refine Nat.le_trans ?_ (hrec2.2.1 p)
            rw [freeOffOf_setPage]
            split
            next hp =>
              rw [hp, hproj]
              omega
            next hp => exact Nat.le_refl _
          · intro x hx1 hx2
            by_cases hxp : x < 2 ^ bits * (addr / 2 ^ bits) + pageSize bits
            · have hcov := cover_in_page (x := x) (a := addr) hb (by omega) (by omega)
                (by omega)
              rw [hcov.1, hcov.2]
              refine Nat.lt_of_lt_of_le ?_ (hrec2.2.1 (addr / 2 ^ bits))
              rw [freeOffOf_setPage, if_pos hpidA.symm, hproj]
              omega
            · exact hrec2.2.2 x (by omega) (by omega)
        next hrec =>
          -- the store starts at or past the free pointer and fits in this page
          refine ⟨?_, ?_, ?_⟩
          · intro p
            rw [freeOffOf_setPage]
            split
            next =>
              rw [hproj]
              omega
            next => exact hinv p
          · intro p
            rw [freeOffOf_setPage]
            split
            next hp =>
              rw [hp, hproj]
              omega
            next hp => exact Nat.le_refl _
          · intro x hx1 hx2
            have hcov := cover_in_page (x := x) (a := addr) hb (by omega) (by omega)
              (by omega)
            rw [hcov.1, hcov.2, freeOffOf_setPage, if_pos hpidA.symm, hproj]
            omega

theorem getD_eq_getElem (l : List Nat) (i : Nat) (h : i < l.length) (d : Nat) :
    l.getD i d = l[i] := by
  rw [List.getD_eq_getElem?_getD, List.getElem?_eq_getElem h]
  rfl

theorem getD_map (l : List Nat) (f : Nat → Nat) (i : Nat) (h : i < l.length) (d : Nat) :
    (l.map f).getD i d = f (l.getD i d) := by
  rw [List.getD_eq_getElem?_getD, List.getD_eq_getElem?_getD, List.getElem?_map,
    List.getElem?_eq_getElem h]
  rfl

theorem loadByte_incOcc_of_some (bits fuel : Nat) (m : VirtualMem) (a l addr v : Nat)
    (h : m.loadByte bits addr = some v) :
    (VirtualMem.incOccLoop bits fuel m a l).loadByte bits addr = some v := by
  rw [loadByte_eq] at h ⊢
  cases hm : m.mapped (GetPageIdByAddress bits addr) with
  | false => rw [hm] at h; simp at h
  | true =>
    rw [hm] at h
    rw [mapped_incOccLoop_mono bits fuel m a l _ hm, readCell_incOccLoop]
    simpa using h

/-- The byte a `StoreByteSequence` leaves at each address of its range. -/
theorem loadByte_after_storeByteSequence (bits : Nat) (hb : bits ≤ 64) (m : VirtualMem)
    (addr : Nat) (s : List Nat) (ha : addr < ADDR_SPACE) (hlen : s.length ≤ ADDR_SPACE)
    (i : Nat) (hi : i < s.length) :
    (m.storeByteSequence bits addr s).1.loadByte bits ((addr + i) % ADDR_SPACE)
      = some (s.getD i 0 % 256) := by
  unfold VirtualMem.storeByteSequence VirtualMem.incrementOccupiedValue
  apply loadByte_incOcc_of_some
  exact loadByte_after_storeBytesLoop bits hb s m addr ha hlen i hi

/-- C3 (claim): storing a byte sequence and loading it back returns the
sequence, and `StoreByteSequence` reports success; length 0 is a no-op. -/
theorem c3_sequence_roundtrip (bits : Nat) (m : VirtualMem) (addr : Nat) (s : List Nat)
    (hb : bits ≤ 64) (ha : addr < ADDR_SPACE) (hlen : s.length ≤ ADDR_SPACE)
    (hbytes : ∀ b ∈ s, b < 256) :
    (m.storeByteSequence bits addr s).2 = true ∧
    (m.storeByteSequence bits addr s).1.loadByteSequence bits addr s.length = some s ∧
    m.storeByteSequence bits addr ([] : List Nat) = (m, true) := by
  refine ⟨rfl, ?_, rfl⟩
  apply loadByteSequence_of_loadByte bits s _ addr ha
  intro i hi
  rw [loadByte_after_storeByteSequence bits hb m addr s ha hlen i hi]
  congr 1
  have hmem : s.getD i 0 ∈ s := by
    rw [getD_eq_getElem s i hi]
    exact List.getElem_mem hi
  exact Nat.mod_eq_of_lt (hbytes _ hmem)

/-- C3 witness inputs are checked in `c3_sequence_roundtrip_witness` below. -/
theorem applyStoreOps_spec (bits : Nat) (hb : bits ≤ 64) (ops : List (Nat × List Nat)) :
    ∀ m : VirtualMem, (∀ p, m.freeOffOf p ≤ pageSize bits) →
      (∀ op ∈ ops, op.1 + op.2.length ≤ ADDR_SPACE) →
      (∀ p, (applyStoreOps bits m ops).freeOffOf p ≤ pageSize bits) ∧
      (∀ p, m.freeOffOf p ≤ (applyStoreOps bits m ops).freeOffOf p) ∧
      (∀ op ∈ ops, ∀ i, i < op.2.length →
        GetPageOffsetByAddress bits (op.1 + i) <
          (applyStoreOps bits m ops).freeOffOf (GetPageIdByAddress bits (op.1 + i))) := by
  induction ops with
  | nil =>
    intro m hinv _
    exact ⟨hinv, fun p => Nat.le_refl _, fun op hop => absurd hop (by simp)⟩
  | cons op rest ih =>
    intro m hinv hops
    obtain ⟨a, s⟩ := op
    have hop : a + s.length ≤ ADDR_SPACE := hops (a, s) (by simp)
    have hinvL : ∀ p, (VirtualMem.storeBytesLoop bits m a s).freeOffOf p ≤ pageSize bits := by
      intro p
      rw [freeOffOf_storeBytesLoop]
      exact hinv p
    have hocc := incOccLoop_spec bits hb s.length s.length
      (VirtualMem.storeBytesLoop bits m a s) a (Nat.le_refl _) hop hinvL
    have hstep : applyStoreOps bits m ((a, s) :: rest)
        = applyStoreOps bits (m.storeByteSequence bits a s).1 rest := rfl
    have hm1 : (m.storeByteSequence bits a s).1
        = VirtualMem.incOccLoop bits s.length (VirtualMem.storeBytesLoop bits m a s) a
            s.length := rfl
    have hrest := ih (m.storeByteSequence bits a s).1
      (by rw [hm1]; exact hocc.1)
      (fun o ho => hops o (by simp [ho]))
    rw [hstep]
    refine ⟨hrest.1, ?_, ?_⟩
    · intro p
      refine Nat.le_trans ?_ (hrest.2.1 p)
      rw [hm1]
      refine Nat.le_trans ?_ (hocc.2.1 p)
      rw [freeOffOf_storeBytesLoop]
    · intro o ho i hil
      rw [List.mem_cons] at ho
      rcases ho with ho | ho
      · subst ho
        have hil2 : i < s.length := hil
        have hgoal : GetPageOffsetByAddress bits (a + i) <
            (applyStoreOps bits (m.storeByteSequence bits a s).1 rest).freeOffOf
              (GetPageIdByAddress bits (a + i)) := by
          refine Nat.lt_of_lt_of_le ?_ (hrest.2.1 (GetPageIdByAddress bits (a + i)))
          rw [hm1]
          exact hocc.2.2 (a + i) (Nat.le_add_right a i) (by omega)
        exact hgoal
      · exact hrest.2.2 o ho i hil

/-- C5 (claim): after any sequence of `StoreByteSequence` calls starting from
fresh memory, every byte of every written range lies inside the occupied prefix
of its page, and no page's free pointer exceeds the page size. -/
theorem c5_occupancy (bits : Nat) (ops : List (Nat × List Nat)) (hb : bits ≤ 64)
    (hops : ∀ op ∈ ops, op.1 + op.2.length ≤ ADDR_SPACE) :
    (∀ op ∈ ops, ∀ i, i < op.2.length →
      GetPageOffsetByAddress bits (op.1 + i) <
        (applyStoreOps bits VirtualMem.empty ops).freeOffOf
          (GetPageIdByAddress bits (op.1 + i))) ∧
    (∀ p, (applyStoreOps bits VirtualMem.empty ops).freeOffOf p ≤ pageSize bits) := by
  have hinv0 : ∀ p, VirtualMem.empty.freeOffOf p ≤ pageSize bits := by
    intro p
    show (0 : Nat) ≤ pageSize bits
    exact Nat.zero_le _
  have h := applyStoreOps_spec bits hb ops VirtualMem.empty hinv0 hops
  exact ⟨h.2.2, h.1⟩

/-! ### The fast multi-byte paths -/

theorem and_mask_shift (value k s : Nat) :
    (value &&& ((2 ^ k - 1) <<< s)) >>> s = value / 2 ^ s % 2 ^ k := by
  apply Nat.eq_of_testBit_eq
  intro j
  rw [Nat.testBit_shiftRight, Nat.testBit_and, Nat.testBit_shiftLeft,
    ← Nat.shiftRight_eq_div_pow, Nat.testBit_mod_two_pow, Nat.testBit_shiftRight]
  have hsub : s + j - s = j := by omega
  have hge : s + j ≥ s := by omega
  rw [hsub, Nat.testBit_two_pow_sub_one]
  by_cases h1 : j < k <;> by_cases h2 : value.testBit (s + j) <;>
    simp [h1, h2, hge, ge_iff_le]

theorem lor_shiftLeft_eq_add {a : Nat} (k b : Nat) (h : a < 2 ^ k) :
    a ||| (b <<< k) = a + b * 2 ^ k := by
  apply Nat.eq_of_testBit_eq
  intro j
  have hr : a + b * 2 ^ k = 2 ^ k * b + a := by ring
  rw [hr, Nat.testBit_mul_pow_two_add b h j, Nat.testBit_or, Nat.testBit_shiftLeft]
  rcases Nat.lt_or_ge j k with h1 | h1
  · simp [h1, Nat.not_le.mpr h1]
  · have hf : a.testBit j = false :=
      Nat.testBit_lt_two_pow (lt_of_lt_of_le h (Nat.pow_le_pow_right (by norm_num) h1))
    simp [hf, Nat.not_lt.mpr h1, h1, ge_iff_le]

theorem setByte_setByte_same (pg : Page) (o a b : Nat) :
    (pg.setByte o a).setByte o b = pg.setByte o b := by
  unfold Page.setByte
  congr 1
  funext o2
  by_cases h : o2 = o <;> simp [h]

theorem setByte_comm (pg : Page) {o o2 : Nat} (h : o ≠ o2) (a b : Nat) :
    (pg.setByte o a).setByte o2 b = (pg.setByte o2 b).setByte o a := by
  unfold Page.setByte
  congr 1
  funext o3
  by_cases h1 : o3 = o <;> by_cases h2 : o3 = o2 <;> simp_all

theorem writeLE_setByte_low :
    ∀ (k : Nat) (q : Page) (o1 o c w : Nat), o < o1 →
      (Page.writeLE q o1 k w).setByte o c = Page.writeLE (q.setByte o c) o1 k w := by
  intro k
  induction k with
  | zero => intro q o1 o c w h; rfl
  | succ k ih =>
    intro q o1 o c w h
    simp only [Page.writeLE]
    rw [ih _ _ _ _ _ (by omega), setByte_comm _ (by omega)]

theorem storeByte_setPage (bits : Nat) (m : VirtualMem) (pid addr c : Nat) (pg : Page)
    (h : GetPageIdByAddress bits addr = pid) :
    (m.setPage pid pg).storeByte bits addr c
      = m.setPage pid (pg.setByte (GetPageOffsetByAddress bits addr) (c % 256)) := by
  simp only [VirtualMem.storeByte, h, getPageD_setPage_self, setPage_setPage]

/-- The byte-decomposition stores that follow a fast-path aligned store overwrite
exactly the bytes the aligned store wrote, so the aligned store is absorbed. -/
theorem storeBytesLoop_absorb (bits : Nat) (hb : bits ≤ 64) :
    ∀ (k : Nat) (m : VirtualMem) (addr v : Nat) (s : List Nat),
      addr < ADDR_SPACE →
      s.length = k + 1 →
      GetPageOffsetByAddress bits addr + (k + 1) ≤ pageSize bits →
      VirtualMem.storeBytesLoop bits
        (m.setPage (GetPageIdByAddress bits addr)
          ((m.getPageD (GetPageIdByAddress bits addr)).writeLE
            (GetPageOffsetByAddress bits addr) (k + 1) v))
        addr s
      = VirtualMem.storeBytesLoop bits m addr s := by
  intro k
  induction k with
  | zero =>
    intro m addr v s ha hs hin
    match s, hs with
    | [c], _ =>
      simp only [VirtualMem.storeBytesLoop, Page.writeLE,
        storeByte_setPage bits m _ addr c _ rfl, setByte_setByte_same]
      simp only [VirtualMem.storeByte]
  | succ k ih =>
    intro m addr v s ha hs hin
    match s, hs with
    | c :: s2, hs =>
      have hoff : GetPageOffsetByAddress bits addr + 1 < 2 ^ bits := by
        have h2 := hin
        unfold pageSize at h2
        omega
      obtain ⟨hlt1, hpid1, hoff1⟩ := pid_off_add hb ha (k := 1) hoff
      have hmod1 : (addr + 1) % ADDR_SPACE = addr + 1 := Nat.mod_eq_of_lt hlt1
      have hs2 : s2.length = k + 1 := by simpa using hs
      have hin2 : GetPageOffsetByAddress bits (addr + 1) + (k + 1) ≤ pageSize bits := by
        rw [hoff1]
        unfold pageSize at hin ⊢
        omega
      show VirtualMem.storeBytesLoop bits
          ((m.setPage (GetPageIdByAddress bits addr)
            ((m.getPageD (GetPageIdByAddress bits addr)).writeLE
              (GetPageOffsetByAddress bits addr) (k + 1 + 1) v)).storeByte bits addr c)
          ((addr + 1) % ADDR_SPACE) s2
        = VirtualMem.storeBytesLoop bits (m.storeByte bits addr c) ((addr + 1) % ADDR_SPACE) s2
      rw [hmod1, storeByte_setPage bits m _ addr c _ rfl]
      have hW : (m.getPageD (GetPageIdByAddress bits addr)).writeLE
            (GetPageOffsetByAddress bits addr) (k + 1 + 1) v
          = ((m.getPageD (GetPageIdByAddress bits addr)).setByte
              (GetPageOffsetByAddress bits addr) (v % 256)).writeLE
              (GetPageOffsetByAddress bits addr + 1) (k + 1) (v / 256) := rfl
      rw [hW, writeLE_setByte_low (k + 1) _ _ _ _ _ (by omega), setByte_setByte_same]
      have hre := ih (m.storeByte bits addr c) (addr + 1) (v / 256) s2 hlt1 hs2 hin2
      rw [hpid1, hoff1] at hre
      have hpg : (m.storeByte bits addr c).getPageD (GetPageIdByAddress bits addr)
          = (m.getPageD (GetPageIdByAddress bits addr)).setByte
              (GetPageOffsetByAddress bits addr) (c % 256) := by
        simp only [VirtualMem.storeByte, getPageD_setPage_self]
      rw [hpg] at hre
      have hsp : ∀ pg2 : Page, (m.storeByte bits addr c).setPage
            (GetPageIdByAddress bits addr) pg2
          = m.setPage (GetPageIdByAddress bits addr) pg2 := by
        intro pg2
        simp only [VirtualMem.storeByte, setPage_setPage]
      rw [hsp] at hre
      exact hre

/-- The slow-path pair of byte stores of `StoreTwoBytesFast`, for any state. -/
theorem storeTwoSlow_eq (bits : Nat) (M : VirtualMem) (addr v : Nat) :
    (M.storeByte bits addr (v &&& (2 ^ 8 - 1))).storeByte bits ((addr + 1) % ADDR_SPACE)
        ((v &&& ((2 ^ 8 - 1) <<< 8)) >>> 8)
      = VirtualMem.storeBytesLoop bits M addr (leBytes 2 v) := by
  have h1 : v &&& (2 ^ 8 - 1) = v % 256 := by
    rw [Nat.and_pow_two_sub_one_eq_mod]
  have h2 : (v &&& ((2 ^ 8 - 1) <<< 8)) >>> 8 = v / 256 % 256 := by
    rw [and_mask_shift]
    norm_num
  rw [h1, h2]
  rfl

theorem storeTwoBytesFast_eq (bits : Nat) (hb : bits ≤ 64) (m : VirtualMem) (addr v : Nat)
    (ha : addr < ADDR_SPACE) :
    m.storeTwoBytesFast bits addr v = VirtualMem.storeBytesLoop bits m addr (leBytes 2 v) := by
  unfold VirtualMem.storeTwoBytesFast
  split
  next hfast =>
    rw [storeTwoSlow_eq]
    simp only [AtOnePage, decide_eq_true_eq] at hfast
    exact storeBytesLoop_absorb bits hb 1 m addr v (leBytes 2 v) ha rfl hfast
  next hslow => rw [storeTwoSlow_eq]

theorem leBytes_length (n v : Nat) : (leBytes n v).length = n := by
  induction n generalizing v with
  | zero => rfl
  | succ k ih => simp [leBytes, ih]

theorem leBytes_add (a b v : Nat) :
    leBytes (a + b) v = leBytes a v ++ leBytes b (v / 2 ^ (8 * a)) := by
  induction a generalizing v with
  | zero => simp [leBytes]
  | succ k ih =>
    have hshape : k + 1 + b = (k + b) + 1 := by omega
    rw [hshape]
    simp only [leBytes, ih, List.cons_append]
    congr 2
    rw [Nat.div_div_eq_div_mul]
    congr 1
    have h1 : 8 * (k + 1) = 8 * k + 8 := by omega
    rw [h1, Nat.pow_add]
    norm_num [Nat.mul_comm]

theorem leBytes_mod (n v : Nat) : leBytes n (v % 2 ^ (8 * n)) = leBytes n v := by
  induction n generalizing v with
  | zero => rfl
  | succ k ih =>
    have hsplit : 2 ^ (8 * (k + 1)) = 256 * 2 ^ (8 * k) := by
      have h1 : 8 * (k + 1) = 8 + 8 * k := by omega
      rw [h1, Nat.pow_add]
    rw [hsplit]
    simp only [leBytes]
    congr 1
    · exact Nat.mod_mod_of_dvd v (dvd_mul_right 256 _)
    · rw [Nat.mod_mul_right_div_self, ih]

theorem storeBytesLoop_append (bits : Nat) (s1 : List Nat) :
    ∀ (m : VirtualMem) (addr : Nat) (s2 : List Nat), addr < ADDR_SPACE →
      VirtualMem.storeBytesLoop bits m addr (s1 ++ s2)
        = VirtualMem.storeBytesLoop bits (VirtualMem.storeBytesLoop bits m addr s1)
            ((addr + s1.length) % ADDR_SPACE) s2 := by
  induction s1 with
  | nil =>
    intro m addr s2 ha
    simp only [List.nil_append, VirtualMem.storeBytesLoop, List.length_nil,
      add_zero_mod ha]
  | cons c rest ih =>
    intro m addr s2 ha
    show VirtualMem.storeBytesLoop bits (m.storeByte bits addr c) ((addr + 1) % ADDR_SPACE)
        (rest ++ s2)
      = VirtualMem.storeBytesLoop bits
          (VirtualMem.storeBytesLoop bits (m.storeByte bits addr c) ((addr + 1) % ADDR_SPACE)
            rest)
          ((addr + (rest.length + 1)) % ADDR_SPACE) s2
    rw [ih _ _ _ (Nat.mod_lt _ (by unfold ADDR_SPACE; norm_num)), shift_mod_add]

theorem storeFourSlow_eq (bits : Nat) (hb : bits ≤ 64) (M : VirtualMem) (addr v : Nat)
    (ha : addr < ADDR_SPACE) :
    (M.storeTwoBytesFast bits addr (v &&& (2 ^ 16 - 1))).storeTwoBytesFast bits
        ((addr + 2) % ADDR_SPACE) ((v &&& ((2 ^ 16 - 1) <<< 16)) >>> 16)
      = VirtualMem.storeBytesLoop bits M addr (leBytes 4 v) := by
  have h1 : v &&& (2 ^ 16 - 1) = v % 2 ^ 16 := Nat.and_pow_two_sub_one_eq_mod v 16
  have h2 : (v &&& ((2 ^ 16 - 1) <<< 16)) >>> 16 = v / 2 ^ 16 % 2 ^ 16 := and_mask_shift v 16 16
  have ha2 : (addr + 2) % ADDR_SPACE < ADDR_SPACE :=
    Nat.mod_lt _ (by unfold ADDR_SPACE; norm_num)
  have hm1 : leBytes 2 (v % 2 ^ 16) = leBytes 2 v := by
    have h := leBytes_mod 2 v
    norm_num at h
    exact h
  have hm2 : leBytes 2 (v / 2 ^ 16 % 2 ^ 16) = leBytes 2 (v / 2 ^ 16) := by
    have h := leBytes_mod 2 (v / 2 ^ 16)
    norm_num at h
    exact h
  have hsplit : leBytes 4 v = leBytes 2 v ++ leBytes 2 (v / 2 ^ 16) := by
    have h := leBytes_add 2 2 v
    norm_num at h
    exact h
  rw [h1, h2, storeTwoBytesFast_eq bits hb M addr _ ha,
    storeTwoBytesFast_eq bits hb _ _ _ ha2, hm1, hm2, hsplit,
    storeBytesLoop_append bits _ _ _ _ ha, leBytes_length]

theorem storeFourBytesFast_eq (bits : Nat) (hb : bits ≤ 64) (m : VirtualMem) (addr v : Nat)
    (ha : addr < ADDR_SPACE) :
    m.storeFourBytesFast bits addr v = VirtualMem.storeBytesLoop bits m addr (leBytes 4 v) := by
  unfold VirtualMem.storeFourBytesFast
  split
  next hfast =>
    rw [storeFourSlow_eq bits hb _ addr v ha]
    simp only [AtOnePage, decide_eq_true_eq] at hfast
    exact storeBytesLoop_absorb bits hb 3 m addr v (leBytes 4 v) ha (leBytes_length 4 v) hfast
  next hslow => rw [storeFourSlow_eq bits hb m addr v ha]

theorem storeEightSlow_eq (bits : Nat) (hb : bits ≤ 64) (M : VirtualMem) (addr v : Nat)
    (ha : addr < ADDR_SPACE) :
    (M.storeFourBytesFast bits addr (v &&& (2 ^ 32 - 1))).storeFourBytesFast bits
        ((addr + 4) % ADDR_SPACE) ((v &&& ((2 ^ 32 - 1) <<< 32)) >>> 32)
      = VirtualMem.storeBytesLoop bits M addr (leBytes 8 v) := by
  have h1 : v &&& (2 ^ 32 - 1) = v % 2 ^ 32 := Nat.and_pow_two_sub_one_eq_mod v 32
  have h2 : (v &&& ((2 ^ 32 - 1) <<< 32)) >>> 32 = v / 2 ^ 32 % 2 ^ 32 := and_mask_shift v 32 32
  have ha2 : (addr + 4) % ADDR_SPACE < ADDR_SPACE :=
    Nat.mod_lt _ (by unfold ADDR_SPACE; norm_num)
  have hm1 : leBytes 4 (v % 2 ^ 32) = leBytes 4 v := by
    have h := leBytes_mod 4 v
    norm_num at h
    exact h
  have hm2 : leBytes 4 (v / 2 ^ 32 % 2 ^ 32) = leBytes 4 (v / 2 ^ 32) := by
    have h := leBytes_mod 4 (v / 2 ^ 32)
    norm_num at h
    exact h
  have hsplit : leBytes 8 v = leBytes 4 v ++ leBytes 4 (v / 2 ^ 32) := by
    have h := leBytes_add 4 4 v
    norm_num at h
    exact h
  rw [h1, h2, storeFourBytesFast_eq bits hb M addr _ ha,
    storeFourBytesFast_eq bits hb _ _ _ ha2, hm1, hm2, hsplit,
    storeBytesLoop_append bits _ _ _ _ ha, leBytes_length]

theorem storeEightBytesFast_eq (bits : Nat) (hb : bits ≤ 64) (m : VirtualMem) (addr v : Nat)
    (ha : addr < ADDR_SPACE) :
    m.storeEightBytesFast bits addr v
      = VirtualMem.storeBytesLoop bits m addr (leBytes 8 v) := by
  unfold VirtualMem.storeEightBytesFast
  split
  next hfast =>
    rw [storeEightSlow_eq bits hb _ addr v ha]
    simp only [AtOnePage, decide_eq_true_eq] at hfast
    exact storeBytesLoop_absorb bits hb 7 m addr v (leBytes 8 v) ha (leBytes_length 8 v) hfast
  next hslow => rw [storeEightSlow_eq bits hb m addr v ha]

theorem loadTwoBytesFast_of_bytes (bits : Nat) (hb : bits ≤ 64) (m : VirtualMem)
    (addr b0 b1 : Nat) (ha : addr < ADDR_SPACE) (hb0 : b0 < 256)
    (h0 : m.loadByte bits addr = some b0)
    (h1 : m.loadByte bits ((addr + 1) % ADDR_SPACE) = some b1) :
    m.loadTwoBytesFast bits addr = some (b0 + 256 * b1) := by
  unfold VirtualMem.loadTwoBytesFast
  split
  next hfast =>
    simp only [AtOnePage, decide_eq_true_eq] at hfast
    have hoff1 : GetPageOffsetByAddress bits addr + 1 < 2 ^ bits := by
      unfold pageSize at hfast
      omega
    obtain ⟨hlt1, hpid1, hoffe1⟩ := pid_off_add hb ha (k := 1) hoff1
    rw [Nat.mod_eq_of_lt hlt1] at h1
    unfold VirtualMem.loadByte at h0 h1
    rw [hpid1] at h1
    cases hpg : m.pages (GetPageIdByAddress bits addr) with
    | none =>
      rw [hpg] at h0
      simp at h0
    | some pg =>
      rw [hpg] at h0 h1
      have h0e : pg.data (GetPageOffsetByAddress bits addr) = b0 := by simpa using h0
      have h1e : pg.data (GetPageOffsetByAddress bits addr + 1) = b1 := by
        rw [← hoffe1]
        simpa using h1
      show some (pg.data (GetPageOffsetByAddress bits addr)
          + 256 * (pg.data (GetPageOffsetByAddress bits addr + 1) + 256 * 0))
        = some (b0 + 256 * b1)
      rw [h0e, h1e]
      exact congrArg some (by omega)
  next hslow =>
    rw [h0, h1]
    show some (b0 ||| (b1 <<< 8)) = some (b0 + 256 * b1)
    rw [lor_shiftLeft_eq_add 8 b1 (by omega)]
    exact congrArg some (by omega)

theorem loadFourBytesFast_of_bytes (bits : Nat) (hb : bits ≤ 64) (m : VirtualMem)
    (addr b0 b1 b2 b3 : Nat) (ha : addr < ADDR_SPACE)
    (hb0 : b0 < 256) (hb1 : b1 < 256) (hb2 : b2 < 256)
    (h0 : m.loadByte bits addr = some b0)
    (h1 : m.loadByte bits ((addr + 1) % ADDR_SPACE) = some b1)
    (h2 : m.loadByte bits ((addr + 2) % ADDR_SPACE) = some b2)
    (h3 : m.loadByte bits ((addr + 3) % ADDR_SPACE) = some b3) :
    m.loadFourBytesFast bits addr
      = some (b0 + 256 * b1 + 65536 * b2 + 16777216 * b3) := by
  unfold VirtualMem.loadFourBytesFast
  split
  next hfast =>
    simp only [AtOnePage, decide_eq_true_eq] at hfast
    have hoffb : ∀ k, k ≤ 3 → GetPageOffsetByAddress bits addr + k < 2 ^ bits := by
      intro k hk
      unfold pageSize at hfast
      omega
    obtain ⟨hlt1, hpid1, hoffe1⟩ := pid_off_add hb ha (k := 1) (hoffb 1 (by omega))
    obtain ⟨hlt2, hpid2, hoffe2⟩ := pid_off_add hb ha (k := 2) (hoffb 2 (by omega))
    obtain ⟨hlt3, hpid3, hoffe3⟩ := pid_off_add hb ha (k := 3) (hoffb 3 (by omega))
    rw [Nat.mod_eq_of_lt hlt1] at h1
    rw [Nat.mod_eq_of_lt hlt2] at h2
    rw [Nat.mod_eq_of_lt hlt3] at h3
    unfold VirtualMem.loadByte at h0 h1 h2 h3
    rw [hpid1] at h1
    rw [hpid2] at h2
    rw [hpid3] at h3
    cases hpg : m.pages (GetPageIdByAddress bits addr) with
    | none =>
      rw [hpg] at h0
      simp at h0
    | some pg =>
      rw [hpg] at h0 h1 h2 h3
      have h0e : pg.data (GetPageOffsetByAddress bits addr) = b0 := by simpa using h0
      have h1e : pg.data (GetPageOffsetByAddress bits addr + 1) = b1 := by
        rw [← hoffe1]
        simpa using h1
      have h2e : pg.data (GetPageOffsetByAddress bits addr + 2) = b2 := by
        rw [← hoffe2]
        simpa using h2
      have h3e : pg.data (GetPageOffsetByAddress bits addr + 3) = b3 := by
        rw [← hoffe3]
        simpa using h3
      show some (pg.data (GetPageOffsetByAddress bits addr)
          + 256 * (pg.data (GetPageOffsetByAddress bits addr + 1)
            + 256 * (pg.data (GetPageOffsetByAddress bits addr + 2)
              + 256 * (pg.data (GetPageOffsetByAddress bits addr + 3) + 256 * 0))))
        = some (b0 + 256 * b1 + 65536 * b2 + 16777216 * b3)
      rw [h0e, h1e, h2e, h3e]
      exact congrArg some (by omega)
  next hslow =>
    have ha2 : (addr + 2) % ADDR_SPACE < ADDR_SPACE :=
      Nat.mod_lt _ (by unfold ADDR_SPACE; norm_num)
    have hA3 : ((addr + 2) % ADDR_SPACE + 1) % ADDR_SPACE = (addr + 3) % ADDR_SPACE := by
      rw [Nat.mod_add_mod, show addr + 2 + 1 = addr + 3 by omega]
    have hlo := loadTwoBytesFast_of_bytes bits hb m addr b0 b1 ha hb0 h0 h1
    have hhi := loadTwoBytesFast_of_bytes bits hb m ((addr + 2) % ADDR_SPACE) b2 b3 ha2 hb2
      h2 (by rw [hA3]; exact h3)
    rw [hlo, hhi]
    show some ((b0 + 256 * b1) ||| ((b2 + 256 * b3) <<< 16))
      = some (b0 + 256 * b1 + 65536 * b2 + 16777216 * b3)
    rw [lor_shiftLeft_eq_add 16 (b2 + 256 * b3) (by omega)]
    exact congrArg some (by omega)

theorem loadEightBytesFast_of_bytes (bits : Nat) (hb : bits ≤ 64) (m : VirtualMem)
    (addr b0 b1 b2 b3 b4 b5 b6 b7 : Nat) (ha : addr < ADDR_SPACE)
    (hb0 : b0 < 256) (hb1 : b1 < 256) (hb2 : b2 < 256) (hb3 : b3 < 256)
    (hb4 : b4 < 256) (hb5 : b5 < 256) (hb6 : b6 < 256)
    (h0 : m.loadByte bits addr = some b0)
    (h1 : m.loadByte bits ((addr + 1) % ADDR_SPACE) = some b1)
    (h2 : m.loadByte bits ((addr + 2) % ADDR_SPACE) = some b2)
    (h3 : m.loadByte bits ((addr + 3) % ADDR_SPACE) = some b3)
    (h4 : m.loadByte bits ((addr + 4) % ADDR_SPACE) = some b4)
    (h5 : m.loadByte bits ((addr + 5) % ADDR_SPACE) = some b5)
    (h6 : m.loadByte bits ((addr + 6) % ADDR_SPACE) = some b6)
    (h7 : m.loadByte bits ((addr + 7) % ADDR_SPACE) = some b7) :
    m.loadEightBytesFast bits addr
      = some (b0 + 256 * b1 + 65536 * b2 + 16777216 * b3 + 4294967296 * b4
          + 1099511627776 * b5 + 281474976710656 * b6 + 72057594037927936 * b7) := by
  unfold VirtualMem.loadEightBytesFast
  split
  next hfast =>
    simp only [AtOnePage, decide_eq_true_eq] at hfast
    have hoffb : ∀ k, k ≤ 7 → GetPageOffsetByAddress bits addr + k < 2 ^ bits := by
      intro k hk
      unfold pageSize at hfast
      omega
    obtain ⟨hlt1, hpid1, hoffe1⟩ := pid_off_add hb ha (k := 1) (hoffb 1 (by omega))
    obtain ⟨hlt2, hpid2, hoffe2⟩ := pid_off_add hb ha (k := 2) (hoffb 2 (by omega))
    obtain ⟨hlt3, hpid3, hoffe3⟩ := pid_off_add hb ha (k := 3) (hoffb 3 (by omega))
    obtain ⟨hlt4, hpid4, hoffe4⟩ := pid_off_add hb ha (k := 4) (hoffb 4 (by omega))
    obtain ⟨hlt5, hpid5, hoffe5⟩ := pid_off_add hb ha (k := 5) (hoffb 5 (by omega))
    obtain ⟨hlt6, hpid6, hoffe6⟩ := pid_off_add hb ha (k := 6) (hoffb 6 (by omega))
    obtain ⟨hlt7, hpid7, hoffe7⟩ := pid_off_add hb ha (k := 7) (hoffb 7 (by omega))
    rw [Nat.mod_eq_of_lt hlt1] at h1
    rw [Nat.mod_eq_of_lt hlt2] at h2
    rw [Nat.mod_eq_of_lt hlt3] at h3
    rw [Nat.mod_eq_of_lt hlt4] at h4
    rw [Nat.mod_eq_of_lt hlt5] at h5
    rw [Nat.mod_eq_of_lt hlt6] at h6
    rw [Nat.mod_eq_of_lt hlt7] at h7
    unfold VirtualMem.loadByte at h0 h1 h2 h3 h4 h5 h6 h7
    rw [hpid1] at h1
    rw [hpid2] at h2
    rw [hpid3] at h3
    rw [hpid4] at h4
    rw [hpid5] at h5
    rw [hpid6] at h6
    rw [hpid7] at h7
    cases hpg : m.pages (GetPageIdByAddress bits addr) with
    | none =>
      rw [hpg] at h0
      simp at h0
    | some pg =>
      rw [hpg] at h0 h1 h2 h3 h4 h5 h6 h7
      have h0e : pg.data (GetPageOffsetByAddress bits addr) = b0 := by simpa using h0
      have h1e : pg.data (GetPageOffsetByAddress bits addr + 1) = b1 := by
        rw [← hoffe1]
        simpa using h1
      have h2e : pg.data (GetPageOffsetByAddress bits addr + 2) = b2 := by
        rw [← hoffe2]
        simpa using h2
      have h3e : pg.data (GetPageOffsetByAddress bits addr + 3) = b3 := by
        rw [← hoffe3]
        simpa using h3
      have h4e : pg.data (GetPageOffsetByAddress bits addr + 4) = b4 := by
        rw [← hoffe4]
        simpa using h4
      have h5e : pg.data (GetPageOffsetByAddress bits addr + 5) = b5 := by
        rw [← hoffe5]
        simpa using h5
      have h6e : pg.data (GetPageOffsetByAddress bits addr + 6) = b6 := by
        rw [← hoffe6]
        simpa using h6
      have h7e : pg.data (GetPageOffsetByAddress bits addr + 7) = b7 := by
        rw [← hoffe7]
        simpa using h7
      show some (pg.data (GetPageOffsetByAddress bits addr)
          + 256 * (pg.data (GetPageOffsetByAddress bits addr + 1)
            + 256 * (pg.data (GetPageOffsetByAddress bits addr + 2)
              + 256 * (pg.data (GetPageOffsetByAddress bits addr + 3)
                + 256 * (pg.data (GetPageOffsetByAddress bits addr + 4)
                  + 256 * (pg.data (GetPageOffsetByAddress bits addr + 5)
                    + 256 * (pg.data (GetPageOffsetByAddress bits addr + 6)
                      + 256 * (pg.data (GetPageOffsetByAddress bits addr + 7)
                        + 256 * 0))))))))
        = some (b0 + 256 * b1 + 65536 * b2 + 16777216 * b3 + 4294967296 * b4
            + 1099511627776 * b5 + 281474976710656 * b6 + 72057594037927936 * b7)
      rw [h0e, h1e, h2e, h3e, h4e, h5e, h6e, h7e]
      exact congrArg some (by omega)
  next hslow =>
    have ha4 : (addr + 4) % ADDR_SPACE < ADDR_SPACE :=
      Nat.mod_lt _ (by unfold ADDR_SPACE; norm_num)
    have hA5 : ((addr + 4) % ADDR_SPACE + 1) % ADDR_SPACE = (addr + 5) % ADDR_SPACE := by
      rw [Nat.mod_add_mod, show addr + 4 + 1 = addr + 5 by omega]
    have hA6 : ((addr + 4) % ADDR_SPACE + 2) % ADDR_SPACE = (addr + 6) % ADDR_SPACE := by
      rw [Nat.mod_add_mod, show addr + 4 + 2 = addr + 6 by omega]
    have hA7 : ((addr + 4) % ADDR_SPACE + 3) % ADDR_SPACE = (addr + 7) % ADDR_SPACE := by
      rw [Nat.mod_add_mod, show addr + 4 + 3 = addr + 7 by omega]
    have hlo := loadFourBytesFast_of_bytes bits hb m addr b0 b1 b2 b3 ha hb0 hb1 hb2
      h0 h1 h2 h3
    have hhi := loadFourBytesFast_of_bytes bits hb m ((addr + 4) % ADDR_SPACE) b4 b5 b6 b7
      ha4 hb4 hb5 hb6 h4 (by rw [hA5]; exact h5) (by rw [hA6]; exact h6)
      (by rw [hA7]; exact h7)
    rw [hlo, hhi]
    show some ((b0 + 256 * b1 + 65536 * b2 + 16777216 * b3)
        ||| ((b4 + 256 * b5 + 65536 * b6 + 16777216 * b7) <<< 32))
      = some (b0 + 256 * b1 + 65536 * b2 + 16777216 * b3 + 4294967296 * b4
          + 1099511627776 * b5 + 281474976710656 * b6 + 72057594037927936 * b7)
    rw [lor_shiftLeft_eq_add 32 (b4 + 256 * b5 + 65536 * b6 + 16777216 * b7) (by omega)]
    exact congrArg some (by omega)

theorem leBytes_getD (n v : Nat) : ∀ i, i < n → (leBytes n v).getD i 0 = v / 256 ^ i % 256 := by
  induction n generalizing v with
  | zero => intro i hi; omega
  | succ k ih =>
    intro i hi
    match i with
    | 0 => simp [leBytes]
    | j + 1 =>
      show (leBytes k (v / 256)).getD j 0 = v / 256 ^ (j + 1) % 256
      rw [ih (v / 256) j (by omega), Nat.div_div_eq_div_mul]
      have hp : 256 * 256 ^ j = 256 ^ (j + 1) := by
        rw [Nat.pow_succ]
        ring
      rw [hp]

/-- The byte left at `addr + i` by the little-endian decomposition store. -/
theorem loadByte_after_leBytes_store (bits : Nat) (hb : bits ≤ 64) (n v : Nat)
    (m : VirtualMem) (addr : Nat) (ha : addr < ADDR_SPACE) (hn : n ≤ ADDR_SPACE)
    (i : Nat) (hi : i < n) :
    (VirtualMem.storeBytesLoop bits m addr (leBytes n v)).loadByte bits
        ((addr + i) % ADDR_SPACE)
      = some (v / 256 ^ i % 256) := by
  have h := loadByte_after_storeBytesLoop bits hb (leBytes n v) m addr ha
    (by rw [leBytes_length]; exact hn) i (by rw [leBytes_length]; exact hi)
  rw [leBytes_getD n v i hi] at h
  rw [h, Nat.mod_mod_of_dvd _ dvd_rfl]

/-- C1 (claim): for each width 2, 4, 8, a fast-path store followed by the
fast-path load at the same address returns the stored value, and the memory
state the fast-path store leaves equals the state left by the equivalent
little-endian sequence of single-byte `StoreByte` calls. -/
theorem c1_fast_path_roundtrip (bits : Nat) (m : VirtualMem) (addr v2 v4 v8 : Nat)
    (hb : bits ≤ 64) (ha : addr < ADDR_SPACE) (h2 : v2 < 2 ^ 16) (h4 : v4 < 2 ^ 32)
    (h8 : v8 < 2 ^ 64) :
    ((m.storeTwoBytesFast bits addr v2).loadTwoBytesFast bits addr = some v2 ∧
      m.storeTwoBytesFast bits addr v2
        = VirtualMem.storeBytesLoop bits m addr (leBytes 2 v2)) ∧
    ((m.storeFourBytesFast bits addr v4).loadFourBytesFast bits addr = some v4 ∧
      m.storeFourBytesFast bits addr v4
        = VirtualMem.storeBytesLoop bits m addr (leBytes 4 v4)) ∧
    ((m.storeEightBytesFast bits addr v8).loadEightBytesFast bits addr = some v8 ∧
      m.storeEightBytesFast bits addr v8
        = VirtualMem.storeBytesLoop bits m addr (leBytes 8 v8)) := by
  have hAS : (2 : Nat) ≤ ADDR_SPACE ∧ (4 : Nat) ≤ ADDR_SPACE ∧ (8 : Nat) ≤ ADDR_SPACE := by
    unfold ADDR_SPACE
    norm_num
  refine ⟨⟨?_, storeTwoBytesFast_eq bits hb m addr v2 ha⟩,
    ⟨?_, storeFourBytesFast_eq bits hb m addr v4 ha⟩,
    ⟨?_, storeEightBytesFast_eq bits hb m addr v8 ha⟩⟩
  · rw [storeTwoBytesFast_eq bits hb m addr v2 ha]
    have hB := loadByte_after_leBytes_store bits hb 2 v2
      (VirtualMem.storeBytesLoop bits m addr (leBytes 2 v2) |> fun _ => m) addr ha hAS.1
    have hby : ∀ i, i < 2 →
        (VirtualMem.storeBytesLoop bits m addr (leBytes 2 v2)).loadByte bits
          ((addr + i) % ADDR_SPACE) = some (v2 / 256 ^ i % 256) :=
      fun i hi => loadByte_after_leBytes_store bits hb 2 v2 m addr ha hAS.1 i hi
    have hb0 := hby 0 (by omega)
    have hb1 := hby 1 (by omega)
    rw [add_zero_mod ha] at hb0
    rw [loadTwoBytesFast_of_bytes bits hb _ addr _ _ ha (Nat.mod_lt _ (by norm_num))
      hb0 hb1]
    exact congrArg some (by omega)
  · rw [storeFourBytesFast_eq bits hb m addr v4 ha]
    have hby : ∀ i, i < 4 →
        (VirtualMem.storeBytesLoop bits m addr (leBytes 4 v4)).loadByte bits
          ((addr + i) % ADDR_SPACE) = some (v4 / 256 ^ i % 256) :=
      fun i hi => loadByte_after_leBytes_store bits hb 4 v4 m addr ha hAS.2.1 i hi
    have hb0 := hby 0 (by omega)
    have hb1 := hby 1 (by omega)
    have hb2 := hby 2 (by omega)
    have hb3 := hby 3 (by omega)
    rw [add_zero_mod ha] at hb0
    rw [loadFourBytesFast_of_bytes bits hb _ addr _ _ _ _ ha (Nat.mod_lt _ (by norm_num))
      (Nat.mod_lt _ (by norm_num)) (Nat.mod_lt _ (by norm_num)) hb0 hb1 hb2 hb3]
    exact congrArg some (by omega)
  · rw [storeEightBytesFast_eq bits hb m addr v8 ha]
    have hby : ∀ i, i < 8 →
        (VirtualMem.storeBytesLoop bits m addr (leBytes 8 v8)).loadByte bits
          ((addr + i) % ADDR_SPACE) = some (v8 / 256 ^ i % 256) :=
      fun i hi => loadByte_after_leBytes_store bits hb 8 v8 m addr ha hAS.2.2 i hi
    have hb0 := hby 0 (by omega)
    have hb1 := hby 1 (by omega)
    have hb2 := hby 2 (by omega)
    have hb3 := hby 3 (by omega)
    have hb4 := hby 4 (by omega)
    have hb5 := hby 5 (by omega)
    have hb6 := hby 6 (by omega)
    have hb7 := hby 7 (by omega)
    rw [add_zero_mod ha] at hb0
    rw [loadEightBytesFast_of_bytes bits hb _ addr _ _ _ _ _ _ _ _ ha
      (Nat.mod_lt _ (by norm_num)) (Nat.mod_lt _ (by norm_num))
      (Nat.mod_lt _ (by norm_num)) (Nat.mod_lt _ (by norm_num))
      (Nat.mod_lt _ (by norm_num)) (Nat.mod_lt _ (by norm_num))
      (Nat.mod_lt _ (by norm_num)) hb0 hb1 hb2 hb3 hb4 hb5 hb6 hb7]
    exact congrArg some (by omega)

/-! ### Claim-level theorems: byte round trip, traces, ELF, translation -/

/-- C4 (claim): for every address `a` and byte `v`, `LoadByte(a)` after
`StoreByte(a, v)` returns `v`. -/
theorem c4_byte_roundtrip (bits : Nat) (m : VirtualMem) (addr v : Nat) (hv : v < 256) :
    (m.storeByte bits addr v).loadByte bits addr = some v := by
  rw [loadByte_eq, mapped_storeByte, readCell_storeByte]
  simp [Nat.mod_eq_of_lt hv]

/-- C4 witness: the byte round trip at a concrete input. -/
theorem c4_byte_roundtrip_witness :
    (7 : Nat) < 256 ∧ (VirtualMem.empty.storeByte 12 5 7).loadByte 12 5 = some 7 :=
  ⟨by decide, c4_byte_roundtrip 12 VirtualMem.empty 5 7 (by decide)⟩

/-- C2 (code evaluation at the failing input): with 4 KiB pages, value 0 and
address 0 the two-byte access fits entirely in one page, yet the instrumented
`StoreTwoBytesFast` performs the single aligned access AND the two
byte-decomposition stores, because the source's fast-path branch has no
`return`/`else`.  The claim says the byte-decomposition path is not taken. -/
theorem c2_store_fast_path_not_exclusive :
    AtOnePage 12 (GetPageOffsetByAddress 12 0) 2 = true ∧
    (VirtualMem.storeTwoBytesFastTr 12 VirtualMem.empty 0 0).2
      = [MemAccess.wide 0 2, MemAccess.byte 0, MemAccess.byte 1] :=
  ⟨by decide, by decide⟩

theorem storeElf_foldl_filter (bits : Nat) (f : ElfFile) :
    ∀ (l : List GElf_Phdr) (m : VirtualMem),
      l.foldl (fun mm ph => if ph.p_type ≠ PT_LOAD then mm
        else (mm.storeByteSequence bits ph.p_vaddr (f.bytesAt ph.p_offset ph.p_filesz)).1) m
      = (l.filter fun ph => ph.p_type == PT_LOAD).foldl
          (fun mm ph => (mm.storeByteSequence bits ph.p_vaddr
            (f.bytesAt ph.p_offset ph.p_filesz)).1) m := by
  intro l
  induction l with
  | nil => intro m; rfl
  | cons ph rest ih =>
    intro m
    by_cases hp : ph.p_type = PT_LOAD
    · have hbeq : (ph.p_type == PT_LOAD) = true := by simp [hp]
      rw [List.foldl_cons, List.filter_cons, hbeq, if_pos rfl, List.foldl_cons,
        if_neg (not_not_intro hp)]
      exact ih _
    · have hbeq : (ph.p_type == PT_LOAD) = false := by simp [hp]
      rw [List.foldl_cons, List.filter_cons, hbeq, if_neg Bool.false_ne_true, if_pos hp]
      exact ih m

/-- C6 (amended): on a validated image the loader returns `e_entry`, and the
memory produced is exactly the fold of `StoreByteSequence` over the LOAD
program headers, each storing the `p_filesz` file bytes found at `p_offset`
into virtual memory at `p_vaddr`.  Non-LOAD headers are skipped; headers with
`p_filesz` larger than `p_memsz` are NOT skipped (see the counterexample). -/
theorem c6_elf_load (bits : Nat) (m : VirtualMem) (f : ElfFile)
    (hv : validateElfHeader f.ehdr = Except.ok ()) :
    m.storeElfFile bits f
      = ((f.phdrs.filter fun ph => ph.p_type == PT_LOAD).foldl
          (fun mm ph => (mm.storeByteSequence bits ph.p_vaddr
            (f.bytesAt ph.p_offset ph.p_filesz)).1) m,
        Except.ok f.ehdr.e_entry) := by
  unfold VirtualMem.storeElfFile
  rw [hv, storeElf_foldl_filter]

/-- C6 (counterexample): the loader does not skip a LOAD header whose
`p_filesz` (here 1) exceeds its `p_memsz` (here 0): the segment byte `7` is
written to virtual address 0, although the claim says no bytes are written for
such a header. -/
theorem c6_counterexample :
    overFileszPhdr.p_type = PT_LOAD ∧
    overFileszPhdr.p_memsz < overFileszPhdr.p_filesz ∧
    (VirtualMem.empty.storeElfFile 12 overFileszElf).1.loadByte 12 0 = some 7 :=
  ⟨rfl, by decide, by decide⟩

/-- C6 witness: the amended theorem applied to the concrete one-segment image. -/
theorem c6_elf_load_witness :
    validateElfHeader overFileszElf.ehdr = Except.ok () ∧
    VirtualMem.empty.storeElfFile 12 overFileszElf
      = ((overFileszElf.phdrs.filter fun ph => ph.p_type == PT_LOAD).foldl
          (fun mm ph => (mm.storeByteSequence 12 ph.p_vaddr
            (overFileszElf.bytesAt ph.p_offset ph.p_filesz)).1) VirtualMem.empty,
        Except.ok overFileszElf.ehdr.e_entry) :=
  ⟨rfl, c6_elf_load 12 VirtualMem.empty overFileszElf rfl⟩

/-- C7 (claim): a header whose machine type, class, data encoding or magic
bytes do not match what the loader supports makes `StoreElfFile` fail before
any store: the memory is returned unchanged and the thrown message names a
field that really does mismatch. -/
theorem c7_elf_reject (bits : Nat) (m : VirtualMem) (f : ElfFile)
    (h : headerRejected f.ehdr) :
    (m.storeElfFile bits f).1 = m ∧
    ∃ s, (m.storeElfFile bits f).2 = Except.error s ∧ errorNamesMismatch s f.ehdr := by
  unfold VirtualMem.storeElfFile validateElfHeader
  by_cases h0 : f.ehdr.mag0 = ELFMAG0
  case neg =>
    rw [if_pos h0]
    exact ⟨rfl, _, rfl, Or.inl ⟨rfl, h0⟩⟩
  rw [if_neg (not_not_intro h0)]
  by_cases h1 : f.ehdr.mag1 = ELFMAG1
  case neg =>
    rw [if_pos h1]
    exact ⟨rfl, _, rfl, Or.inr (Or.inl ⟨rfl, h1⟩)⟩
  rw [if_neg (not_not_intro h1)]
  by_cases h2 : f.ehdr.mag2 = ELFMAG2
  case neg =>
    rw [if_pos h2]
    exact ⟨rfl, _, rfl, Or.inr (Or.inr (Or.inl ⟨rfl, h2⟩))⟩
  rw [if_neg (not_not_intro h2)]
  by_cases h3 : f.ehdr.mag3 = ELFMAG3
  case neg =>
    rw [if_pos h3]
    exact ⟨rfl, _, rfl, Or.inr (Or.inr (Or.inr (Or.inl ⟨rfl, h3⟩)))⟩
  rw [if_neg (not_not_intro h3)]
  by_cases h4 : f.ehdr.ei_class = ELFCLASS64
  case neg =>
    rw [if_pos h4]
    exact ⟨rfl, _, rfl, Or.inr (Or.inr (Or.inr (Or.inr (Or.inl ⟨rfl, h4⟩))))⟩
  rw [if_neg (not_not_intro h4)]
  by_cases h5 : f.ehdr.ei_data = ELFDATA2LSB
  case neg =>
    rw [if_pos h5]
    exact ⟨rfl, _, rfl, Or.inr (Or.inr (Or.inr (Or.inr (Or.inr (Or.inl ⟨rfl, h5⟩)))))⟩
  rw [if_neg (not_not_intro h5)]
  by_cases h6 : f.ehdr.e_machine = EM_RISCV
  case neg =>
    rw [if_pos h6]
    exact ⟨rfl, _, rfl, Or.inr (Or.inr (Or.inr (Or.inr (Or.inr (Or.inr ⟨rfl, h6⟩)))))⟩
  exfalso
  unfold headerRejected at h
  simp [h0, h1, h2, h3, h4, h5, h6] at h

/-- C7 witness: rejection of the concrete x86-64 image, with memory unchanged. -/
theorem c7_elf_reject_witness :
    headerRejected badMachineEhdr ∧
    ((VirtualMem.empty.storeElfFile 12 badMachineElf).1 = VirtualMem.empty ∧
      ∃ s, (VirtualMem.empty.storeElfFile 12 badMachineElf).2 = Except.error s ∧
        errorNamesMismatch s badMachineEhdr) :=
  ⟨Or.inl (by decide),
    c7_elf_reject 12 VirtualMem.empty badMachineElf (Or.inl (by decide))⟩

/-- C10 (amended): address translation is a bijective split on the 64-bit
address space: recombining an address's page id and offset returns the
address, and a pair `(page_id, offset)` with `page_id < 2 ^ (64 - bits)` and
an in-page offset is recovered exactly from its pointer.  For larger page ids
`GetPointer` wraps modulo `2 ^ 64`, so recovery fails — see the counterexample. -/
theorem c10_translation_split (bits a page_id off : Nat) (hb : bits ≤ 64)
    (ha : a < ADDR_SPACE) (hpid : page_id < 2 ^ (64 - bits)) (hoff : off < pageSize bits) :
    GetPointer bits (GetPageIdByAddress bits a) (GetPageOffsetByAddress bits a) = a ∧
    GetPageIdByAddress bits (GetPointer bits page_id off) = page_id ∧
    GetPageOffsetByAddress bits (GetPointer bits page_id off) = off := by
  have hP0 : 0 < 2 ^ bits := Nat.pos_pow_of_pos bits (by norm_num)
  have hpow : 2 ^ (64 - bits) * 2 ^ bits = 2 ^ 64 := by
    rw [← Nat.pow_add]
    congr 1
    omega
  unfold pageSize at hoff
  have hval : page_id * 2 ^ bits + off < 2 ^ 64 := by
    have h1 := Nat.mul_le_mul_right (2 ^ bits) (Nat.succ_le_of_lt hpid)
    rw [Nat.succ_mul] at h1
    omega
  have hvalAS : page_id * 2 ^ bits + off < ADDR_SPACE := hval
  have hmodv : (page_id * 2 ^ bits + off) % ADDR_SPACE = page_id * 2 ^ bits + off :=
    Nat.mod_eq_of_lt hvalAS
  refine ⟨?_, ?_, ?_⟩
  · unfold GetPointer
    rw [Nat.shiftLeft_eq, GetPageIdByAddress_eq_div hb ha, GetPageOffsetByAddress_eq]
    have hsplit : a / 2 ^ bits * 2 ^ bits + a % 2 ^ bits = a := by
      rw [Nat.mul_comm]
      exact Nat.div_add_mod a (2 ^ bits)
    rw [hsplit]
    have ha2 : a < 2 ^ 64 := ha
    exact Nat.mod_eq_of_lt ha2
  · unfold GetPointer
    rw [Nat.shiftLeft_eq, hmodv,
      GetPageIdByAddress_eq_div hb (show page_id * 2 ^ bits + off < ADDR_SPACE from hval)]
    rw [Nat.add_comm, Nat.add_mul_div_right off page_id hP0, Nat.div_eq_of_lt hoff]
    exact Nat.zero_add page_id
  · unfold GetPointer
    rw [Nat.shiftLeft_eq, hmodv, GetPageOffsetByAddress_eq,
      show page_id * 2 ^ bits + off = 2 ^ bits * page_id + off by ring,
      Nat.mul_add_mod, Nat.mod_eq_of_lt hoff]

/-- C10 (counterexample): with 4 KiB pages, the pair `(2 ^ 52, 0)` has an
in-page offset, yet `GetPointer` wraps `uintptr_t` to 0, so translating the
pointer back yields page id 0, not `2 ^ 52`. -/
theorem c10_counterexample :
    (0 : Nat) < pageSize 12 ∧
    GetPageIdByAddress 12 (GetPointer 12 (2 ^ 52) 0) ≠ 2 ^ 52 :=
  ⟨by decide, by decide⟩

/-- C10 witness: the amended split theorem at a concrete address and pair. -/
theorem c10_translation_split_witness :
    ((12 : Nat) ≤ 64 ∧ (0x123456 : Nat) < ADDR_SPACE ∧ (3 : Nat) < 2 ^ (64 - 12) ∧
      (5 : Nat) < pageSize 12) ∧
    (GetPointer 12 (GetPageIdByAddress 12 0x123456) (GetPageOffsetByAddress 12 0x123456)
        = 0x123456 ∧
      GetPageIdByAddress 12 (GetPointer 12 3 5) = 3 ∧
      GetPageOffsetByAddress 12 (GetPointer 12 3 5) = 5) :=
  ⟨⟨by decide, by decide, by decide, by decide⟩,
    c10_translation_split 12 0x123456 3 5 (by decide) (by decide) (by decide) (by decide)⟩

/-! ### Hart execution: RunInstr and the Simple run loop -/

theorem runSimpleLoop_halt {σ ι : Type} (H : HartModel σ ι) :
    ∀ (fuel : Nat) (s t : σ) (c : Nat) (tr : List Nat),
      runSimpleLoop H fuel s = some (t, c, tr) →
      H.getPC t = 0 ∧ (H.getPC s ≠ 0 → ∀ a ∈ tr, a ≠ 0) := by
  intro fuel
  induction fuel with
  | zero =>
    intro s t c tr h
    exact absurd h (by simp [runSimpleLoop])
  | succ fuel ih =>
    intro s t c tr h
    simp only [runSimpleLoop] at h
    by_cases h0 : H.getPC (hartStep H s).1 = 0
    · rw [if_pos h0] at h
      simp only [Option.some.injEq, Prod.mk.injEq] at h
      obtain ⟨rfl, rfl, rfl⟩ := h
      refine ⟨h0, ?_⟩
      intro hpc a ha
      rw [List.mem_singleton] at ha
      subst ha
      exact hpc
    · rw [if_neg h0] at h
      cases hrec : runSimpleLoop H fuel (hartStep H s).1 with
      | none =>
        rw [hrec] at h
        exact absurd h (by simp)
      | some r =>
        obtain ⟨t1, c1, tr1⟩ := r
        rw [hrec] at h
        simp only [Option.some.injEq, Prod.mk.injEq] at h
        obtain ⟨rfl, rfl, rfl⟩ := h
        obtain ⟨hhalt, htr⟩ := ih (hartStep H s).1 t1 c1 tr1 hrec
        refine ⟨hhalt, ?_⟩
        intro hpc a ha
        rw [List.mem_cons] at ha
        rcases ha with ha | ha
        · subst ha
          exact hpc
        · exact htr h0 a ha

theorem runSimpleLoop_counts {σ ι : Type} (H : HartModel σ ι) :
    ∀ (fuel : Nat) (s t : σ) (c : Nat) (tr : List Nat),
      runSimpleLoop H fuel s = some (t, c, tr) →
      t = stepIter H s c ∧ c = tr.length ∧ 1 ≤ c := by
  intro fuel
  induction fuel with
  | zero =>
    intro s t c tr h
    exact absurd h (by simp [runSimpleLoop])
  | succ fuel ih =>
    intro s t c tr h
    simp only [runSimpleLoop] at h
    by_cases h0 : H.getPC (hartStep H s).1 = 0
    · rw [if_pos h0] at h
      simp only [Option.some.injEq, Prod.mk.injEq] at h
      obtain ⟨rfl, rfl, rfl⟩ := h
      exact ⟨rfl, rfl, Nat.le_refl 1⟩
    · rw [if_neg h0] at h
      cases hrec : runSimpleLoop H fuel (hartStep H s).1 with
      | none =>
        rw [hrec] at h
        exact absurd h (by simp)
      | some r =>
        obtain ⟨t1, c1, tr1⟩ := r
        rw [hrec] at h
        simp only [Option.some.injEq, Prod.mk.injEq] at h
        obtain ⟨rfl, rfl, rfl⟩ := h
        obtain ⟨hti, hci, hc1⟩ := ih (hartStep H s).1 t1 c1 tr1 hrec
        refine ⟨hti, ?_, ?_⟩
        · show c1 + 1 = tr1.length + 1
          omega
        · omega

/-- C8 (amended): `RunInstr` returns 1 without any fetch when the PC is 0, and
the Simple do-while loop, once it terminates, stops in a state whose PC is 0;
when the loop is ENTERED with a nonzero PC every fetch it issues is at a
nonzero address.  The entry-PC side condition is necessary: the loop body runs
before the PC test, so entering the loop at PC 0 issues one fetch at address 0
— see the counterexample. -/
theorem c8_halt_fetch {σ ι : Type} (H : HartModel σ ι) (fuel : Nat) (s t : σ)
    (c : Nat) (tr : List Nat) (hpc : H.getPC s ≠ 0)
    (hrun : runSimpleLoop H fuel s = some (t, c, tr)) :
    (∀ u : σ, H.getPC u = 0 → hartRunInstr H u = (u, 1, [])) ∧
    H.getPC t = 0 ∧ (∀ a ∈ tr, a ≠ 0) := by
  obtain ⟨hhalt, htr⟩ := runSimpleLoop_halt H fuel s t c tr hrun
  refine ⟨?_, hhalt, htr hpc⟩
  intro u hu
  simp [hartRunInstr, hu]

/-- C8 (counterexample): the do-while loop of `RunImpl(SIMPLE)` entered with
PC already 0 still executes one body, fetching at address 0, because the
`pc != 0` test only runs after the body. -/
theorem c8_entry_pc_zero_fetches :
    haltedHart.getPC 0 = 0 ∧ runSimpleLoop haltedHart 1 0 = some (0, 1, [0]) :=
  ⟨rfl, rfl⟩

/-- C8 witness: the amended theorem on the concrete five-instruction hart
entered at PC 4. -/
theorem c8_halt_fetch_witness :
    (fiveInstrHart.getPC 4 ≠ 0 ∧
      runSimpleLoop fiveInstrHart 5 4 = some (0, 5, [4, 8, 12, 16, 20])) ∧
    ((∀ u : Nat, fiveInstrHart.getPC u = 0 → hartRunInstr fiveInstrHart u = (u, 1, [])) ∧
      fiveInstrHart.getPC 0 = 0 ∧ (∀ a ∈ [4, 8, 12, 16, 20], a ≠ 0)) :=
  ⟨⟨by decide, by decide⟩,
    c8_halt_fetch fiveInstrHart 5 4 0 5 [4, 8, 12, 16, 20] (by decide) (by decide)⟩

/-- C9 (claim): when the Simple do-while loop reaches PC 0 after `c` bodies,
`RunImpl(SIMPLE)` terminates; the reported instruction count `c` equals the
number of loop bodies actually executed (the final state is exactly `c`
iterations of the body, and the fetch trace has length `c`); and the three
instrumentation lines (instruction count, execution time, MIPS) are emitted
iff the measure flag is set. -/
theorem c9_run_to_completion {σ ι : Type} (H : HartModel σ ι) (fuel : Nat) (s : σ)
    (measure : Bool) (dur : Nat) (t : σ) (c : Nat) (tr : List Nat)
    (hrun : runSimpleLoop H fuel s = some (t, c, tr)) :
    hartRunImpl H Mode.SIMPLE measure fuel s dur
      = some (stepIter H s c, c, if measure then measureLines c dur else []) ∧
    H.getPC (stepIter H s c) = 0 ∧ c = tr.length ∧ 1 ≤ c := by
  obtain ⟨hti, hci, hc1⟩ := runSimpleLoop_counts H fuel s t c tr hrun
  have hhalt := (runSimpleLoop_halt H fuel s t c tr hrun).1
  subst hti
  refine ⟨?_, hhalt, hci, hc1⟩
  simp only [hartRunImpl, hrun]

/-- C9 witness: the five-instruction program reports a count of 5 and emits
the three measurement lines when the measure flag is set. -/
theorem c9_run_to_completion_witness :
    runSimpleLoop fiveInstrHart 5 4 = some (0, 5, [4, 8, 12, 16, 20]) ∧
    (hartRunImpl fiveInstrHart Mode.SIMPLE true 5 4 3
        = some (stepIter fiveInstrHart 4 5, 5, if true then measureLines 5 3 else []) ∧
      fiveInstrHart.getPC (stepIter fiveInstrHart 4 5) = 0 ∧
      (5 : Nat) = ([4, 8, 12, 16, 20] : List Nat).length ∧ 1 ≤ 5) :=
  ⟨by decide,
    c9_run_to_completion fiveInstrHart 5 4 true 3 0 5 [4, 8, 12, 16, 20] (by decide)⟩

/-! ### Witnesses for the memory claims -/

/-- C1 witness: the fast-path round trip at the page-crossing address 4095
with 4 KiB pages, for all three widths. -/
theorem c1_fast_path_roundtrip_witness :
    ((12 : Nat) ≤ 64 ∧ (4095 : Nat) < ADDR_SPACE ∧ (0x1234 : Nat) < 2 ^ 16 ∧
      (0x89ABCDEF : Nat) < 2 ^ 32 ∧ (0x1122334455667788 : Nat) < 2 ^ 64) ∧
    (((VirtualMem.empty.storeTwoBytesFast 12 4095 0x1234).loadTwoBytesFast 12 4095
          = some 0x1234 ∧
        VirtualMem.empty.storeTwoBytesFast 12 4095 0x1234
          = VirtualMem.storeBytesLoop 12 VirtualMem.empty 4095 (leBytes 2 0x1234)) ∧
      ((VirtualMem.empty.storeFourBytesFast 12 4095 0x89ABCDEF).loadFourBytesFast 12 4095
          = some 0x89ABCDEF ∧
        VirtualMem.empty.storeFourBytesFast 12 4095 0x89ABCDEF
          = VirtualMem.storeBytesLoop 12 VirtualMem.empty 4095 (leBytes 4 0x89ABCDEF)) ∧
      ((VirtualMem.empty.storeEightBytesFast 12 4095
            0x1122334455667788).loadEightBytesFast 12 4095
          = some 0x1122334455667788 ∧
        VirtualMem.empty.storeEightBytesFast 12 4095 0x1122334455667788
          = VirtualMem.storeBytesLoop 12 VirtualMem.empty 4095
              (leBytes 8 0x1122334455667788))) :=
  ⟨⟨by decide, by decide, by decide, by decide, by decide⟩,
    c1_fast_path_roundtrip 12 VirtualMem.empty 4095 0x1234 0x89ABCDEF 0x1122334455667788
      (by decide) (by decide) (by decide) (by decide) (by decide)⟩

/-- C3 witness: the sequence round trip for the three-byte sequence [1, 2, 3]
stored at address 5 with 4 KiB pages. -/
theorem c3_sequence_roundtrip_witness :
    ((12 : Nat) ≤ 64 ∧ (5 : Nat) < ADDR_SPACE ∧
      ([1, 2, 3] : List Nat).length ≤ ADDR_SPACE ∧ ∀ b ∈ [1, 2, 3], b < 256) ∧
    ((VirtualMem.empty.storeByteSequence 12 5 [1, 2, 3]).2 = true ∧
      (VirtualMem.empty.storeByteSequence 12 5 [1, 2, 3]).1.loadByteSequence 12 5
          ([1, 2, 3] : List Nat).length = some [1, 2, 3] ∧
      VirtualMem.empty.storeByteSequence 12 5 ([] : List Nat) = (VirtualMem.empty, true)) :=
  ⟨⟨by decide, by decide, by decide, by decide⟩,
    c3_sequence_roundtrip 12 VirtualMem.empty 5 [1, 2, 3] (by decide) (by decide)
      (by decide) (by decide)⟩

/-- C5 witness: the occupancy invariant after two stores, one of which crosses
the page boundary at 4096. -/
theorem c5_occupancy_witness :
    ((12 : Nat) ≤ 64 ∧
      ∀ op ∈ ([(0, [1, 2]), (4094, [5, 6, 7])] : List (Nat × List Nat)),
        op.1 + op.2.length ≤ ADDR_SPACE) ∧
    ((∀ op ∈ ([(0, [1, 2]), (4094, [5, 6, 7])] : List (Nat × List Nat)),
        ∀ i, i < op.2.length →
          GetPageOffsetByAddress 12 (op.1 + i) <
            (applyStoreOps 12 VirtualMem.empty
                [(0, [1, 2]), (4094, [5, 6, 7])]).freeOffOf
              (GetPageIdByAddress 12 (op.1 + i))) ∧
      (∀ p, (applyStoreOps 12 VirtualMem.empty
          [(0, [1, 2]), (4094, [5, 6, 7])]).freeOffOf p ≤ pageSize 12)) :=
  ⟨⟨by decide, by decide⟩,
    c5_occupancy 12 [(0, [1, 2]), (4094, [5, 6, 7])] (by decide) (by decide)⟩


end RVSim
